import Mathlib

/-!
Verification of the stretcher-bar frame suggestion engine
(`stretcher_bar_size.py`): a shallow embedding of the size-domain
generator, retail price tables, least-squares print-price model, fan
candidate builder and the suggestion pipeline, together with proofs of
the specified properties.  Python floats are modelled by `ℚ`; Python
exceptions (`ValueError`, `ZeroDivisionError`) by an `Except` monad.
-/

namespace StretcherBar

/-- Python's `round` on a real value: round half to even (banker's rounding). -/
def pyRound (q : ℚ) : ℤ :=
  if q - Rat.floor q < 1/2 then Rat.floor q
  else if 1/2 < q - Rat.floor q then Rat.floor q + 1
  else if Rat.floor q % 2 = 0 then Rat.floor q else Rat.floor q + 1

/-- Python's `round(x, 2)`: round to two decimal places. -/
def round2 (q : ℚ) : ℚ := (pyRound (q * 100) : ℚ) / 100

/-- `get_stretcher_sizes`: 1" increments from `min_size` to `max_single`
inclusive, then 2" increments from `max_single + 2` to `max_double`
inclusive (Python `range` semantics). -/
def get_stretcher_sizes (min_size : ℕ := 14) (max_single : ℕ := 86)
    (max_double : ℕ := 98) : List ℕ :=
  List.range' min_size (max_single + 1 - min_size) 1 ++
    List.range' (max_single + 2) ((max_double + 1 - (max_single + 2) + 1) / 2) 2

/-- `_STRETCHER_SIZES`: the default size domain. -/
def STRETCHER_SIZES : List ℕ := get_stretcher_sizes

/-- The size domain as integers (bar lengths appear as Python ints). -/
def STRETCHER_SIZES_Z : List ℤ := STRETCHER_SIZES.map (fun n => (n : ℤ))

/-- `_FRAME_CANDIDATES`: full cross-product of the size domain with itself. -/
def FRAME_CANDIDATES : List (ℤ × ℤ) :=
  STRETCHER_SIZES_Z.flatMap (fun w => STRETCHER_SIZES_Z.map (fun h => (w, h)))

/-- `HEAVY_PRICES` table (length → unit price, USD). -/
def HEAVY_PRICES : List (ℤ × ℚ) :=
  [(8, 5.31), (9, 5.35), (10, 5.47), (11, 5.59), (12, 5.59), (13, 5.94), (14, 5.94),
   (15, 6.87), (16, 6.87), (17, 7.36), (18, 7.36), (19, 8.18), (20, 8.18), (22, 8.76),
   (23, 9.57), (24, 9.61), (26, 11.04), (27, 11.26), (28, 12.08), (29, 12.70),
   (30, 12.69), (31, 13.13), (32, 13.97), (33, 14.24), (34, 14.93), (35, 15.05),
   (36, 15.17), (37, 16.25), (38, 16.60), (39, 17.14), (40, 18.14), (41, 18.35),
   (42, 18.37), (43, 19.29), (44, 17.96), (45, 19.77), (46, 19.79), (48, 20.85),
   (50, 21.35), (52, 22.27), (54, 22.74), (56, 23.59), (60, 25.24),
   (61, 25.24), (62, 25.24), (63, 25.30), (64, 25.24),
   (65, 25.93), (66, 25.95), (67, 25.93), (68, 25.95),
   (69, 27.72), (70, 27.72), (71, 27.72), (72, 27.72),
   (73, 30.39), (74, 30.47), (75, 30.39), (76, 30.47),
   (77, 31.01), (78, 31.62), (79, 31.68),
   (80, 34.25), (81, 34.25),
   (82, 36.83), (83, 36.82), (84, 36.83), (85, 36.82),
   (86, 44.45), (88, 44.45),
   (90, 50.59), (92, 50.59),
   (94, 53.94), (96, 53.94),
   (98, 57.68)]

/-- `STANDARD_PRICES` table (length → unit price, USD). -/
def STANDARD_PRICES : List (ℤ × ℚ) :=
  [(8, 1.49), (9, 1.48), (10, 1.62), (11, 3.35), (12, 1.95), (13, 2.15), (14, 2.36),
   (15, 2.44), (16, 2.70), (17, 2.81), (18, 2.80), (19, 2.82), (20, 3.41), (21, 3.53),
   (22, 3.48), (23, 3.54), (24, 3.57), (25, 3.78), (26, 2.50), (27, 4.46), (28, 4.71),
   (29, 5.22), (30, 5.12), (31, 5.38), (32, 5.40), (33, 5.98), (34, 5.47), (35, 5.69),
   (36, 6.12), (38, 6.67), (40, 6.78), (42, 6.95), (44, 8.02), (46, 7.11), (48, 7.22),
   (50, 7.53), (52, 7.72), (54, 7.74), (60, 8.11)]

/-- `PRINT_BORDER_PER_SIDE_IN = 1.5`. -/
def PRINT_BORDER_PER_SIDE_IN : ℚ := 1.5

/-- `PRINT_SHIPPING_USD = 10.0`. -/
def PRINT_SHIPPING_USD : ℚ := 10

/-- `PRINT_PRICES`: (long side, short side) → print price, in Python
dict insertion order. -/
def PRINT_PRICES : List ((ℤ × ℤ) × ℚ) :=
  [((60, 57), 106), ((60, 50), 93), ((60, 40), 75), ((50, 40), 63),
   ((40, 40), 50), ((40, 30), 38), ((40, 20), 25), ((35, 23), 25),
   ((30, 20), 19), ((20, 20), 13), ((20, 10), 7), ((10, 10), 3)]

/-- `_PRINT_SAMPLES`: (area, price) samples flattened from `PRINT_PRICES`. -/
def PRINT_SAMPLES : List (ℚ × ℚ) :=
  PRINT_PRICES.map (fun e => (((e.1.1 * e.1.2 : ℤ) : ℚ), e.2))

/-- `statistics.mean` of the sample areas. -/
def mean_area : ℚ := (PRINT_SAMPLES.map Prod.fst).sum / (PRINT_SAMPLES.length : ℚ)

/-- `statistics.mean` of the sample prices. -/
def mean_price : ℚ := (PRINT_SAMPLES.map Prod.snd).sum / (PRINT_SAMPLES.length : ℚ)

/-- `_slope`: least-squares slope of price against area. -/
def slope : ℚ :=
  (PRINT_SAMPLES.map (fun s => (s.1 - mean_area) * (s.2 - mean_price))).sum /
    (PRINT_SAMPLES.map (fun s => (s.1 - mean_area) ^ 2)).sum

/-- `_intercept`: least-squares intercept of price against area. -/
def intercept : ℚ := mean_price - slope * mean_area

/-- Python's `min(seq, key=price)` over a list of catalog entries: first
entry achieving the minimal price. -/
def minByPrice : List ((ℤ × ℤ) × ℚ) → Option ((ℤ × ℤ) × ℚ)
  | [] => none
  | x :: xs => some (xs.foldl (fun acc y => if y.2 < acc.2 then y else acc) x)

/-- `_print_prices`: returns `(table_price, model_price, chosen_table_size)`.
The request is normalized to (long, short) = (max, min); the candidate fits
are the catalog entries dominating it on both axes. -/
def print_prices (width_in height_in : ℚ) : Option ℚ × ℚ × (ℤ × ℤ) :=
  match minByPrice (PRINT_PRICES.filter
    (fun e => decide (max width_in height_in ≤ (e.1.1 : ℚ)) &&
      decide (min width_in height_in ≤ (e.1.2 : ℚ)))) with
  | some e => (some e.2, round2 (intercept + slope * (width_in * height_in)), e.1)
  | none => (none, round2 (intercept + slope * (width_in * height_in)), (0, 0))

/-- Python list slice `l[-fan:]` (`l[-0:]` is the whole list). -/
def pySliceLast (l : List ℤ) (fan : ℕ) : List ℤ :=
  if fan = 0 then l else l.drop (l.length - fan)

/-- `_nearest_sizes`: up to `2*fan` stretcher sizes surrounding `x`,
ascending, duplicates removed. -/
def nearest_sizes (x : ℚ) (fan : ℕ := 2) : List ℤ :=
  ((pySliceLast (STRETCHER_SIZES_Z.filter (fun s => decide (s ≤ pyRound x))) fan ++
      (STRETCHER_SIZES_Z.filter (fun s => decide (pyRound x ≤ s))).take fan).dedup).insertionSort
    (· ≤ ·)

/-- `_bar_price`: table lookup, `None` when the length is absent. -/
def bar_price (length : ℤ) (heavy : Bool) : Option ℚ :=
  (if heavy then HEAVY_PRICES else STANDARD_PRICES).lookup length

/-- Python exceptions raised by the engine. -/
inductive Err where
  | valueError : Err
  | zeroDivision : Err
deriving DecidableEq, Repr

/-- `_fan_candidates`: neighbourhood of (w, h) bar pairs around the fixed
side (or around both ideal dimensions when only a DPI is given).  A zero
image height (aspect ratio) or zero DPI raises `ZeroDivisionError`; no
constraint at all raises `ValueError`. -/
def fan_candidates (img_w_px img_h_px : ℕ)
    (target_width_in target_height_in target_dpi : Option ℚ)
    (fan : ℕ := 2) : Except Err (List (ℤ × ℤ)) :=
  if img_h_px = 0 then .error .zeroDivision
  else
    match target_width_in, target_height_in with
    | some tw, _ =>
      if (img_w_px : ℚ) / (img_h_px : ℚ) = 0 then .error .zeroDivision
      else
        .ok ((nearest_sizes ((pyRound tw : ℚ) / ((img_w_px : ℚ) / (img_h_px : ℚ))) fan).map
          (fun h => (pyRound tw, h)))
    | none, some th =>
      .ok ((nearest_sizes ((pyRound th : ℚ) * ((img_w_px : ℚ) / (img_h_px : ℚ))) fan).map
        (fun w => (w, pyRound th)))
    | none, none =>
      match target_dpi with
      | some td =>
        if td = 0 then .error .zeroDivision
        else
          .ok ((nearest_sizes ((img_w_px : ℚ) / td) fan).flatMap
            (fun w => (nearest_sizes ((img_h_px : ℚ) / td) fan).map (fun h => (w, h))))
      | none => .error .valueError

/-- One suggestion tuple of `suggest_stretcher_frames`. -/
structure FrameSuggestion where
  bar_w : ℤ
  bar_h : ℤ
  dpi_x : ℚ
  dpi_y : ℚ
  pct_area_delta : ℚ
  heavy_cost : Option ℚ
  std_cost : Option ℚ
  print_cost_tbl : Option ℚ
  print_cost_model : ℚ
  tbl_size : ℤ × ℤ
  print_w : ℚ
  print_h : ℚ
  final_total : Option ℚ
deriving DecidableEq, Repr, Inhabited

/-- Python truthiness of an optional float: `None` and `0.0` are falsy. -/
def truthy : Option ℚ → Bool
  | none => false
  | some q => decide (q ≠ 0)

/-- A grade's bar cost as computed in the main loop: `2 * (w price + h
price)` rounded to cents when both lengths are priced (`is not None`). -/
def mainGradeCost (p : ℤ × ℤ) (heavy : Bool) : Option ℚ :=
  match bar_price p.1 heavy, bar_price p.2 heavy with
  | some a, some b => some (round2 (2 * (a + b)))
  | _, _ => none

/-- The fields of the suggestion tuple built in the main loop of
`suggest_stretcher_frames` for a candidate pair that survived the DPI
filter (the main loop tests prices with `is not None`). -/
def mainSuggestion (img_width_px img_height_px : ℕ) (req_area : ℚ)
    (p : ℤ × ℤ) : FrameSuggestion :=
  { bar_w := p.1
    bar_h := p.2
    dpi_x := (img_width_px : ℚ) / (p.1 : ℚ)
    dpi_y := (img_height_px : ℚ) / (p.2 : ℚ)
    pct_area_delta := ((p.1 : ℚ) * (p.2 : ℚ) - req_area) / req_area * 100
    heavy_cost := mainGradeCost p true
    std_cost := mainGradeCost p false
    print_cost_tbl :=
      (print_prices ((p.1 : ℚ) + 2 * PRINT_BORDER_PER_SIDE_IN)
        ((p.2 : ℚ) + 2 * PRINT_BORDER_PER_SIDE_IN)).1.map
        (fun t => round2 (t + PRINT_SHIPPING_USD))
    print_cost_model :=
      round2 ((print_prices ((p.1 : ℚ) + 2 * PRINT_BORDER_PER_SIDE_IN)
        ((p.2 : ℚ) + 2 * PRINT_BORDER_PER_SIDE_IN)).2.1 + PRINT_SHIPPING_USD)
    tbl_size :=
      (print_prices ((p.1 : ℚ) + 2 * PRINT_BORDER_PER_SIDE_IN)
        ((p.2 : ℚ) + 2 * PRINT_BORDER_PER_SIDE_IN)).2.2
    print_w := (p.1 : ℚ) + 2 * PRINT_BORDER_PER_SIDE_IN
    print_h := (p.2 : ℚ) + 2 * PRINT_BORDER_PER_SIDE_IN
    final_total :=
      (match mainGradeCost p true, mainGradeCost p false with
        | some hc, some sc => some (min hc sc)
        | some hc, none => some hc
        | none, sc => sc).map
        (fun b => round2 (b +
          match (print_prices ((p.1 : ℚ) + 2 * PRINT_BORDER_PER_SIDE_IN)
              ((p.2 : ℚ) + 2 * PRINT_BORDER_PER_SIDE_IN)).1.map
              (fun t => round2 (t + PRINT_SHIPPING_USD)) with
          | some t => min t (round2 ((print_prices
              ((p.1 : ℚ) + 2 * PRINT_BORDER_PER_SIDE_IN)
              ((p.2 : ℚ) + 2 * PRINT_BORDER_PER_SIDE_IN)).2.1 + PRINT_SHIPPING_USD))
          | none => round2 ((print_prices
              ((p.1 : ℚ) + 2 * PRINT_BORDER_PER_SIDE_IN)
              ((p.2 : ℚ) + 2 * PRINT_BORDER_PER_SIDE_IN)).2.1 + PRINT_SHIPPING_USD))) }

/-- Evaluation of one candidate pair inside the main loop.  `ok none`
means the candidate was rejected by the DPI filter; a zero bar length or a
zero nominal area raises `ZeroDivisionError`. -/
def evalMain (img_width_px img_height_px : ℕ) (min_dpi max_dpi req_area : ℚ)
    (p : ℤ × ℤ) : Except Err (Option FrameSuggestion) :=
  if p.1 = 0 then .error .zeroDivision
  else if p.2 = 0 then .error .zeroDivision
  else if ¬ (min_dpi ≤ (img_width_px : ℚ) / (p.1 : ℚ) ∧
      (img_width_px : ℚ) / (p.1 : ℚ) ≤ max_dpi ∧
      min_dpi ≤ (img_height_px : ℚ) / (p.2 : ℚ) ∧
      (img_height_px : ℚ) / (p.2 : ℚ) ≤ max_dpi) then .ok none
  else if req_area = 0 then .error .zeroDivision
  else .ok (some (mainSuggestion img_width_px img_height_px req_area p))

/-- A grade's bar cost as computed in the back-fill loop, which tests
prices by Python truthiness (`if hp_w and hp_h`). -/
def backfillGradeCost (p : ℤ × ℤ) (heavy : Bool) : Option ℚ :=
  match bar_price p.1 heavy, bar_price p.2 heavy with
  | some a, some b => if a ≠ 0 ∧ b ≠ 0 then some (round2 (2 * (a + b))) else none
  | _, _ => none

/-- The print-price candidates surviving the truthiness filter in the
back-fill loop's `min(c for c in [...] if c)` generator. -/
def backfillPrintOpts (p : ℤ × ℤ) : List ℚ :=
  (if truthy (match (print_prices ((p.1 : ℚ) + 2 * PRINT_BORDER_PER_SIDE_IN)
      ((p.2 : ℚ) + 2 * PRINT_BORDER_PER_SIDE_IN)).1 with
    | some t => if t ≠ 0 then some (round2 (t + PRINT_SHIPPING_USD)) else none
    | none => none) then
    [(match (print_prices ((p.1 : ℚ) + 2 * PRINT_BORDER_PER_SIDE_IN)
        ((p.2 : ℚ) + 2 * PRINT_BORDER_PER_SIDE_IN)).1 with
      | some t => if t ≠ 0 then some (round2 (t + PRINT_SHIPPING_USD)) else none
      | none => none).getD 0]
  else []) ++
    (if round2 ((print_prices ((p.1 : ℚ) + 2 * PRINT_BORDER_PER_SIDE_IN)
        ((p.2 : ℚ) + 2 * PRINT_BORDER_PER_SIDE_IN)).2.1 + PRINT_SHIPPING_USD) ≠ 0 then
      [round2 ((print_prices ((p.1 : ℚ) + 2 * PRINT_BORDER_PER_SIDE_IN)
        ((p.2 : ℚ) + 2 * PRINT_BORDER_PER_SIDE_IN)).2.1 + PRINT_SHIPPING_USD)]
    else [])

/-- The bar cost chosen by the back-fill loop (Python truthiness tests). -/
def backfillBarCost (p : ℤ × ℤ) : Option ℚ :=
  if truthy (backfillGradeCost p true) ∧ truthy (backfillGradeCost p false) then
    some (min ((backfillGradeCost p true).getD 0) ((backfillGradeCost p false).getD 0))
  else if truthy (backfillGradeCost p true) then backfillGradeCost p true
  else backfillGradeCost p false

/-- The fields of the suggestion tuple built in the back-fill loop (valid
when `backfillPrintOpts p` is nonempty, which the caller checks). -/
def backfillSuggestion (img_width_px img_height_px : ℕ) (req_area : ℚ)
    (p : ℤ × ℤ) : FrameSuggestion :=
  { bar_w := p.1
    bar_h := p.2
    dpi_x := (img_width_px : ℚ) / (p.1 : ℚ)
    dpi_y := (img_height_px : ℚ) / (p.2 : ℚ)
    pct_area_delta := ((p.1 : ℚ) * (p.2 : ℚ) - req_area) / req_area * 100
    heavy_cost := backfillGradeCost p true
    std_cost := backfillGradeCost p false
    print_cost_tbl :=
      match (print_prices ((p.1 : ℚ) + 2 * PRINT_BORDER_PER_SIDE_IN)
          ((p.2 : ℚ) + 2 * PRINT_BORDER_PER_SIDE_IN)).1 with
      | some t => if t ≠ 0 then some (round2 (t + PRINT_SHIPPING_USD)) else none
      | none => none
    print_cost_model :=
      round2 ((print_prices ((p.1 : ℚ) + 2 * PRINT_BORDER_PER_SIDE_IN)
        ((p.2 : ℚ) + 2 * PRINT_BORDER_PER_SIDE_IN)).2.1 + PRINT_SHIPPING_USD)
    tbl_size :=
      (print_prices ((p.1 : ℚ) + 2 * PRINT_BORDER_PER_SIDE_IN)
        ((p.2 : ℚ) + 2 * PRINT_BORDER_PER_SIDE_IN)).2.2
    print_w := (p.1 : ℚ) + 2 * PRINT_BORDER_PER_SIDE_IN
    print_h := (p.2 : ℚ) + 2 * PRINT_BORDER_PER_SIDE_IN
    final_total :=
      match backfillBarCost p with
      | some b =>
        if b ≠ 0 then
          some (round2 (b +
            match backfillPrintOpts p with
            | c :: cs => cs.foldl min c
            | [] => 0))
        else none
      | none => none }

/-- Evaluation of one candidate pair inside the back-fill loop.  The
truthiness-filtered `min` over an empty candidate list raises
`ValueError`. -/
def evalBackfill (img_width_px img_height_px : ℕ) (min_dpi max_dpi req_area : ℚ)
    (p : ℤ × ℤ) : Except Err (Option FrameSuggestion) :=
  if p.1 = 0 then .error .zeroDivision
  else if p.2 = 0 then .error .zeroDivision
  else if ¬ (min_dpi ≤ (img_width_px : ℚ) / (p.1 : ℚ) ∧
      (img_width_px : ℚ) / (p.1 : ℚ) ≤ max_dpi ∧
      min_dpi ≤ (img_height_px : ℚ) / (p.2 : ℚ) ∧
      (img_height_px : ℚ) / (p.2 : ℚ) ≤ max_dpi) then .ok none
  else if req_area = 0 then .error .zeroDivision
  else if backfillPrintOpts p = [] then .error .valueError
  else .ok (some (backfillSuggestion img_width_px img_height_px req_area p))

/-- The main candidate loop: evaluates each frame in order, keeping the
survivors of the DPI filter. -/
def mainLoop (img_width_px img_height_px : ℕ) (min_dpi max_dpi req_area : ℚ) :
    List (ℤ × ℤ) → Except Err (List FrameSuggestion)
  | [] => .ok []
  | p :: rest =>
    match evalMain img_width_px img_height_px min_dpi max_dpi req_area p with
    | .error e => .error e
    | .ok none => mainLoop img_width_px img_height_px min_dpi max_dpi req_area rest
    | .ok (some r) =>
      match mainLoop img_width_px img_height_px min_dpi max_dpi req_area rest with
      | .error e => .error e
      | .ok l => .ok (r :: l)

/-- The back-fill loop: appends surviving brute-force frames not already
in `skip`, stopping as soon as `max_suggestions` candidates are held. -/
def backfillLoop (img_width_px img_height_px : ℕ) (min_dpi max_dpi req_area : ℚ)
    (skip : List (ℤ × ℤ)) (max_suggestions : ℕ) :
    List (ℤ × ℤ) → List FrameSuggestion → Except Err (List FrameSuggestion)
  | [], acc => .ok acc
  | p :: rest, acc =>
    if p ∈ skip then
      backfillLoop img_width_px img_height_px min_dpi max_dpi req_area skip
        max_suggestions rest acc
    else
      match evalBackfill img_width_px img_height_px min_dpi max_dpi req_area p with
      | .error e => .error e
      | .ok none =>
        backfillLoop img_width_px img_height_px min_dpi max_dpi req_area skip
          max_suggestions rest acc
      | .ok (some r) =>
        if max_suggestions ≤ (acc ++ [r]).length then .ok (acc ++ [r])
        else
          backfillLoop img_width_px img_height_px min_dpi max_dpi req_area skip
            max_suggestions rest (acc ++ [r])

/-- Input validation and implied-DPI derivation of `suggest_stretcher_frames`. -/
def resolveDpi (img_width_px img_height_px : ℕ)
    (target_dpi target_width_in target_height_in : Option ℚ) : Except Err ℚ :=
  let cnt := (if target_dpi.isSome then 1 else 0) +
    (if target_width_in.isSome then 1 else 0) +
    (if target_height_in.isSome then 1 else 0)
  if cnt ≠ 1 then .error .valueError
  else
    match target_dpi with
    | some d => .ok d
    | none =>
      match target_width_in with
      | some w => if w ≤ 0 then .error .valueError else .ok ((img_width_px : ℚ) / w)
      | none =>
        match target_height_in with
        | some h => if h ≤ 0 then .error .valueError else .ok ((img_height_px : ℚ) / h)
        | none => .error .valueError

/-- Lower edge of the DPI acceptance band. -/
def dpiBandLo (dpi tolerance_pct : ℚ) : ℚ := dpi * (1 - tolerance_pct / 100)

/-- Upper edge of the DPI acceptance band. -/
def dpiBandHi (dpi tolerance_pct : ℚ) : ℚ := dpi * (1 + tolerance_pct / 100)

/-- The nominal physical area of the image at the resolved DPI. -/
def reqArea (img_width_px img_height_px : ℕ) (dpi : ℚ) : ℚ :=
  ((img_width_px : ℚ) / dpi) * ((img_height_px : ℚ) / dpi)

/-- The suggestion pipeline up to (and including) the back-fill pass, i.e.
the candidate list in enumeration order, before ranking and truncation. -/
def preSortResults (img_width_px img_height_px : ℕ)
    (target_dpi target_width_in target_height_in : Option ℚ)
    (tolerance_pct : ℚ := 15) (max_suggestions : ℕ := 16)
    (use_fan : Bool := false) (fan_span : ℕ := 2) :
    Except Err (List FrameSuggestion) :=
  match resolveDpi img_width_px img_height_px target_dpi target_width_in
      target_height_in with
  | .error e => .error e
  | .ok dpi =>
    if dpi = 0 then .error .zeroDivision
    else
      match (if use_fan then
          fan_candidates img_width_px img_height_px target_width_in target_height_in
            (some dpi) fan_span
        else .ok FRAME_CANDIDATES) with
      | .error e => .error e
      | .ok candidate_frames =>
        match mainLoop img_width_px img_height_px (dpiBandLo dpi tolerance_pct)
            (dpiBandHi dpi tolerance_pct) (reqArea img_width_px img_height_px dpi)
            candidate_frames with
        | .error e => .error e
        | .ok cands =>
          if use_fan = true ∧ cands.length < max_suggestions then
            backfillLoop img_width_px img_height_px (dpiBandLo dpi tolerance_pct)
              (dpiBandHi dpi tolerance_pct) (reqArea img_width_px img_height_px dpi)
              candidate_frames max_suggestions FRAME_CANDIDATES cands
          else .ok cands

/-- Primary ranking key: wrap-around (negative delta) weighted one third. -/
def primaryKey (r : FrameSuggestion) : ℚ :=
  if r.pct_area_delta < 0 then |r.pct_area_delta| / 3 else |r.pct_area_delta|

/-- Secondary ranking key: aspect-ratio mismatch against the image. -/
def secondaryKey (aspect : ℚ) (r : FrameSuggestion) : ℚ :=
  |(r.bar_w : ℚ) / (r.bar_h : ℚ) - aspect|

/-- The composite sort order used by `candidates.sort(key=...)`:
lexicographic comparison of (primary, secondary).  Python's sort is
stable, so over this total preorder it coincides with insertion sort. -/
def keyRel (aspect : ℚ) (a b : FrameSuggestion) : Prop :=
  primaryKey a < primaryKey b ∨
    (primaryKey a = primaryKey b ∧ secondaryKey aspect a ≤ secondaryKey aspect b)

instance (aspect : ℚ) : DecidableRel (keyRel aspect) := fun a b => by
  unfold keyRel; infer_instance

instance (aspect : ℚ) : IsTotal FrameSuggestion (keyRel aspect) := by
  constructor
  intro a b
  unfold keyRel
  rcases lt_trichotomy (primaryKey a) (primaryKey b) with h | h | h
  · exact Or.inl (Or.inl h)
  · rcases le_total (secondaryKey aspect a) (secondaryKey aspect b) with h2 | h2
    · exact Or.inl (Or.inr ⟨h, h2⟩)
    · exact Or.inr (Or.inr ⟨h.symm, h2⟩)
  · exact Or.inr (Or.inl h)

instance (aspect : ℚ) : IsTrans FrameSuggestion (keyRel aspect) := by
  constructor
  intro a b c hab hbc
  unfold keyRel at *
  rcases hab with h1 | ⟨h1, h1'⟩ <;> rcases hbc with h2 | ⟨h2, h2'⟩
  · exact Or.inl (h1.trans h2)
  · exact Or.inl (h2 ▸ h1)
  · exact Or.inl (h1 ▸ h2)
  · exact Or.inr ⟨h1.trans h2, h1'.trans h2'⟩

/-- `suggest_stretcher_frames`: full pipeline, returning the ranked,
truncated suggestion list or the Python exception raised. -/
def suggest_stretcher_frames (img_width_px img_height_px : ℕ)
    (target_dpi target_width_in target_height_in : Option ℚ)
    (tolerance_pct : ℚ := 15) (max_suggestions : ℕ := 16)
    (use_fan : Bool := false) (fan_span : ℕ := 2) :
    Except Err (List FrameSuggestion) :=
  match preSortResults img_width_px img_height_px target_dpi target_width_in
      target_height_in tolerance_pct max_suggestions use_fan fan_span with
  | .error e => .error e
  | .ok cands =>
    if img_height_px = 0 then .error .zeroDivision
    else
      .ok ((cands.insertionSort
        (keyRel ((img_width_px : ℚ) / (img_height_px : ℚ)))).take max_suggestions)

instance {ε α : Type} [DecidableEq ε] [DecidableEq α] : DecidableEq (Except ε α) := fun a b =>
  match a, b with
  | .ok x, .ok y => if h : x = y then .isTrue (by rw [h]) else .isFalse (by simp [h])
  | .error x, .error y => if h : x = y then .isTrue (by rw [h]) else .isFalse (by simp [h])
  | .ok _, .error _ => .isFalse (by simp)
  | .error _, .ok _ => .isFalse (by simp)

/-- The bar pair of a suggestion tuple. -/
def suggestionPair (r : FrameSuggestion) : ℤ × ℤ := (r.bar_w, r.bar_h)

/-- The cheapest available bar cost of a suggestion: the cheaper grade when
both are priced, the present one when only one is, absent otherwise. -/
def cheaperBar (r : FrameSuggestion) : Option ℚ :=
  match r.heavy_cost, r.std_cost with
  | some hc, some sc => some (min hc sc)
  | some hc, none => some hc
  | none, sc => sc

/-- The cheaper of a suggestion's table and model print costs (the model
cost is always present). -/
def cheaperPrint (r : FrameSuggestion) : ℚ :=
  match r.print_cost_tbl with
  | some t => min t r.print_cost_model
  | none => r.print_cost_model

/-- The cost contract of one suggestion tuple: `final_total` is absent
exactly when both grade costs are absent; a present `final_total` is the
cheapest available bar cost plus the cheaper print cost; print costs
include the flat shipping surcharge while grade costs are bare bar
prices doubled; grade costs are absent exactly when a bar length is
missing from the grade's table. -/
def CostSpec (r : FrameSuggestion) : Prop :=
  (r.final_total = none ↔ r.heavy_cost = none ∧ r.std_cost = none) ∧
  (∀ t, r.final_total = some t →
    ∃ b, cheaperBar r = some b ∧ t = b + cheaperPrint r) ∧
  r.print_cost_model =
    round2 ((print_prices r.print_w r.print_h).2.1 + PRINT_SHIPPING_USD) ∧
  (∀ pt, r.print_cost_tbl = some pt →
    ∃ tb, (print_prices r.print_w r.print_h).1 = some tb ∧
      pt = round2 (tb + PRINT_SHIPPING_USD)) ∧
  (∀ hc, r.heavy_cost = some hc →
    ∃ a b, bar_price r.bar_w true = some a ∧ bar_price r.bar_h true = some b ∧
      hc = round2 (2 * (a + b))) ∧
  (∀ sc, r.std_cost = some sc →
    ∃ a b, bar_price r.bar_w false = some a ∧ bar_price r.bar_h false = some b ∧
      sc = round2 (2 * (a + b))) ∧
  (r.heavy_cost = none ↔
    bar_price r.bar_w true = none ∨ bar_price r.bar_h true = none) ∧
  (r.std_cost = none ↔
    bar_price r.bar_w false = none ∨ bar_price r.bar_h false = none)

/-- A candidate pair is admissible when both per-axis DPI values can be
computed (nonzero bars) and sit inside the acceptance band. -/
def admissiblePair (img_width_px img_height_px : ℕ) (min_dpi max_dpi : ℚ)
    (p : ℤ × ℤ) : Prop :=
  ¬ p.1 = 0 ∧ ¬ p.2 = 0 ∧
    min_dpi ≤ (img_width_px : ℚ) / (p.1 : ℚ) ∧ (img_width_px : ℚ) / (p.1 : ℚ) ≤ max_dpi ∧
    min_dpi ≤ (img_height_px : ℚ) / (p.2 : ℚ) ∧ (img_height_px : ℚ) / (p.2 : ℚ) ≤ max_dpi

instance (img_width_px img_height_px : ℕ) (min_dpi max_dpi : ℚ) (p : ℤ × ℤ) :
    Decidable (admissiblePair img_width_px img_height_px min_dpi max_dpi p) := by
  unfold admissiblePair; infer_instance

/-- Number of admissible pairs in the full brute-force domain. -/
def bruteForceAdmissibleCount (img_width_px img_height_px : ℕ)
    (min_dpi max_dpi : ℚ) : ℕ :=
  (FRAME_CANDIDATES.filter
    (fun p => decide (admissiblePair img_width_px img_height_px min_dpi max_dpi p))).length

/-- Number of admissible brute-force pairs outside the already-evaluated set. -/
def backfillAdmissibleCount (img_width_px img_height_px : ℕ)
    (min_dpi max_dpi : ℚ) (skip : List (ℤ × ℤ)) : ℕ :=
  (FRAME_CANDIDATES.filter
    (fun p => decide (¬ p ∈ skip ∧
      admissiblePair img_width_px img_height_px min_dpi max_dpi p))).length

/-- A value is a whole number of cents. -/
def IsCent (q : ℚ) : Prop := ∃ n : ℤ, q = (n : ℚ) / 100

/-! Concrete runs of the pipeline used to instantiate the general theorems:
a square 1300 × 1300 px image with `target_width_in = 13`, tolerance 15 %,
fan span 2, in fan mode — once truncated at 2 suggestions and once at 6
(the latter triggers the back-fill pass). -/

/-- The fan candidate set of the 1300 × 1300, width-13 request. -/
def fanC : List (ℤ × ℤ) :=
  (fan_candidates 1300 1300 (some 13) none (some 100) 2).toOption.getD []

/-- The fan candidates surviving the DPI filter of that request. -/
def fanK : List FrameSuggestion :=
  (mainLoop 1300 1300 (dpiBandLo 100 15) (dpiBandHi 100 15)
    (reqArea 1300 1300 100) fanC).toOption.getD []

/-- The pre-sort candidate list of that request at `max_suggestions = 2`. -/
def pre2 : List FrameSuggestion :=
  (preSortResults 1300 1300 none (some 13) none 15 2 true 2).toOption.getD []

/-- The suggestion list of that request at `max_suggestions = 2`. -/
def out2 : List FrameSuggestion :=
  (suggest_stretcher_frames 1300 1300 none (some 13) none 15 2 true 2).toOption.getD []

/-- The top-ranked suggestion of that request at `max_suggestions = 2`. -/
def head2 : FrameSuggestion := out2.headI

/-- The pre-sort candidate list of that request at `max_suggestions = 6`. -/
def pre6 : List FrameSuggestion :=
  (preSortResults 1300 1300 none (some 13) none 15 6 true 2).toOption.getD []

/-- The suggestion list of that request at `max_suggestions = 6`. -/
def out6 : List FrameSuggestion :=
  (suggest_stretcher_frames 1300 1300 none (some 13) none 15 6 true 2).toOption.getD []

/-- The malformed-input contract of `suggest_stretcher_frames`: not exactly
one sizing constraint supplied, or a non-positive supplied physical
dimension. -/
def malformedInput (target_dpi target_width_in target_height_in : Option ℚ) : Prop :=
  ((if target_dpi.isSome then 1 else 0) + (if target_width_in.isSome then 1 else 0) +
    (if target_height_in.isSome then 1 else 0) : ℕ) ≠ 1 ∨
  (match target_width_in with
    | some w => w ≤ 0
    | none => False) ∨
  (match target_height_in with
    | some h => h ≤ 0
    | none => False)

instance (td tw th : Option ℚ) : Decidable (malformedInput td tw th) := by
  unfold malformedInput
  rcases tw with _ | w <;> rcases th with _ | hq <;> dsimp only <;> infer_instance

/-! ### Size domain: general lemmas and claims C8, C9 -/

/-- Consecutive elements of `List.range' s n step` differ by exactly `step`. -/
theorem chain_range'_step (s n step : ℕ) :
    List.Chain' (fun a b => b = a + step) (List.range' s n step) := by
  induction n generalizing s with
  | zero => simp
  | succ n ih =>
    rw [List.range'_succ]
    cases n with
    | zero => simp
    | succ m =>
      rw [List.range'_succ]
      refine List.chain'_cons.mpr ⟨rfl, ?_⟩
      have h := ih (s + step)
      rwa [List.range'_succ] at h

/-- Claim C8 (counterexample): the default size domain has 79 entries with
6 double-step values, not 80 entries with 7 double-step values. -/
theorem getStretcherSizes_default_length_ne_eighty :
    (get_stretcher_sizes 14 86 98).length = 79 ∧
    (get_stretcher_sizes 14 86 98).length ≠ 80 ∧
    ((get_stretcher_sizes 14 86 98).filter (fun x => decide (86 < x))).length = 6 := by
  decide

/-- Claim C8 (amended): `get_stretcher_sizes 14 86 98` is exactly the
ascending list `[14, 15, ..., 86, 88, 90, 92, 94, 96, 98]`: 73 single-step
values followed by 6 double-step values, 79 entries in total. -/
theorem getStretcherSizes_default_eq :
    get_stretcher_sizes 14 86 98 =
      [14, 15, 16, 17, 18, 19, 20, 21, 22, 23, 24, 25, 26, 27, 28, 29, 30, 31,
       32, 33, 34, 35, 36, 37, 38, 39, 40, 41, 42, 43, 44, 45, 46, 47, 48, 49,
       50, 51, 52, 53, 54, 55, 56, 57, 58, 59, 60, 61, 62, 63, 64, 65, 66, 67,
       68, 69, 70, 71, 72, 73, 74, 75, 76, 77, 78, 79, 80, 81, 82, 83, 84, 85,
       86, 88, 90, 92, 94, 96, 98] ∧
    ((get_stretcher_sizes 14 86 98).filter (fun x => decide (x ≤ 86))).length = 73 ∧
    ((get_stretcher_sizes 14 86 98).filter (fun x => decide (86 < x))).length = 6 ∧
    (get_stretcher_sizes 14 86 98).length = 79 := by
  decide

/-- Claim C9: for `minSize ≤ maxSingle ≤ maxDouble` with matching parity,
the generated size domain is strictly ascending, duplicate-free, starts at
`minSize`, and its segment beyond `maxSingle` advances by exactly 2. -/
theorem getStretcherSizes_sorted_nodup_head_step (minS maxS maxD : ℕ)
    (h1 : minS ≤ maxS) (h2 : maxS ≤ maxD) (h3 : maxS % 2 = maxD % 2) :
    (get_stretcher_sizes minS maxS maxD).Sorted (· < ·) ∧
    (get_stretcher_sizes minS maxS maxD).Nodup ∧
    (get_stretcher_sizes minS maxS maxD).head? = some minS ∧
    List.Chain' (fun a b => b = a + 2)
      ((get_stretcher_sizes minS maxS maxD).filter (fun x => decide (maxS < x))) := by
  have hm1 : ∀ x ∈ List.range' minS (maxS + 1 - minS) 1, x ≤ maxS := by
    intro x hx
    rw [List.mem_range'] at hx
    obtain ⟨i, hi, rfl⟩ := hx
    omega
  have hm2 : ∀ x ∈ List.range' (maxS + 2) ((maxD + 1 - (maxS + 2) + 1) / 2) 2,
      maxS < x := by
    intro x hx
    rw [List.mem_range'] at hx
    obtain ⟨i, hi, rfl⟩ := hx
    omega
  have hsorted : (get_stretcher_sizes minS maxS maxD).Sorted (· < ·) := by
    unfold get_stretcher_sizes
    rw [List.Sorted, List.pairwise_append]
    refine ⟨List.pairwise_lt_range' _ _ 1 (by omega),
      List.pairwise_lt_range' _ _ 2 (by omega), ?_⟩
    intro a ha b hb
    exact lt_of_le_of_lt (hm1 a ha) (hm2 b hb)
  refine ⟨hsorted, hsorted.nodup, ?_, ?_⟩
  · unfold get_stretcher_sizes
    have hn : maxS + 1 - minS = (maxS - minS) + 1 := by omega
    rw [hn, List.range'_succ]
    rfl
  · unfold get_stretcher_sizes
    rw [List.filter_append]
    have hf1 : (List.range' minS (maxS + 1 - minS) 1).filter
        (fun x => decide (maxS < x)) = [] := by
      rw [List.filter_eq_nil_iff]
      intro a ha
      have := hm1 a ha
      simp
      omega
    have hf2 : (List.range' (maxS + 2) ((maxD + 1 - (maxS + 2) + 1) / 2) 2).filter
        (fun x => decide (maxS < x)) =
        List.range' (maxS + 2) ((maxD + 1 - (maxS + 2) + 1) / 2) 2 := by
      rw [List.filter_eq_self]
      intro a ha
      have := hm2 a ha
      simp
      omega
    rw [hf1, hf2, List.nil_append]
    exact chain_range'_step _ _ _

/-- Claim C9 (witness): the general size-domain theorem instantiated at the
default configuration. -/
theorem getStretcherSizes_sorted_nodup_head_step_witness :
    (14 ≤ 86 ∧ 86 ≤ 98 ∧ 86 % 2 = 98 % 2) ∧
    ((get_stretcher_sizes 14 86 98).Sorted (· < ·) ∧
     (get_stretcher_sizes 14 86 98).Nodup ∧
     (get_stretcher_sizes 14 86 98).head? = some 14 ∧
     List.Chain' (fun a b => b = a + 2)
       ((get_stretcher_sizes 14 86 98).filter (fun x => decide (86 < x)))) :=
  ⟨by decide,
   getStretcherSizes_sorted_nodup_head_step 14 86 98 (by decide) (by decide) (by decide)⟩

/-! ### Rounding arithmetic -/

/-- `Rat.floor` agrees with the floor of the ordered field `ℚ`. -/
theorem ratFloor_eq_floor (q : ℚ) : Rat.floor q = ⌊q⌋ := by
  rw [Rat.floor_def' q, Rat.floor_def]

/-- Banker's rounding differs from its argument by at most one half. -/
theorem pyRound_bounds (q : ℚ) :
    q - 1/2 ≤ (pyRound q : ℚ) ∧ (pyRound q : ℚ) ≤ q + 1/2 := by
  unfold pyRound
  rw [ratFloor_eq_floor]
  have hfl : (⌊q⌋ : ℚ) ≤ q := Int.floor_le q
  have hfu : q < (⌊q⌋ : ℚ) + 1 := Int.lt_floor_add_one q
  split
  · next h => constructor <;> push_cast <;> linarith
  · next h =>
    split
    · next h' => constructor <;> push_cast <;> linarith
    · next h' =>
      have hr : q - (⌊q⌋ : ℚ) = 1/2 := le_antisymm (not_lt.mp h') (not_lt.mp h)
      split <;> constructor <;> push_cast <;> linarith

/-- Banker's rounding of a nonnegative value is nonnegative. -/
theorem pyRound_nonneg (q : ℚ) (hq : 0 ≤ q) : 0 ≤ pyRound q := by
  unfold pyRound
  rw [ratFloor_eq_floor]
  have h0 : 0 ≤ ⌊q⌋ := Int.floor_nonneg.mpr hq
  split
  · exact h0
  · split
    · omega
    · split <;> omega

/-- Banker's rounding of an integer is that integer. -/
theorem pyRound_intCast (n : ℤ) : pyRound (n : ℚ) = n := by
  unfold pyRound
  rw [ratFloor_eq_floor, Int.floor_intCast]
  have h : (n : ℚ) - (n : ℚ) = 0 := by ring
  rw [h]
  norm_num

/-- Rounding to cents moves a value by at most half a cent. -/
theorem round2_bounds (q : ℚ) :
    q - 1/200 ≤ round2 q ∧ round2 q ≤ q + 1/200 := by
  unfold round2
  obtain ⟨h1, h2⟩ := pyRound_bounds (q * 100)
  constructor
  · rw [le_div_iff₀ (by norm_num : (0:ℚ) < 100)]
    linarith
  · rw [div_le_iff₀ (by norm_num : (0:ℚ) < 100)]
    linarith

/-- Rounding to cents preserves nonnegativity. -/
theorem round2_nonneg (q : ℚ) (hq : 0 ≤ q) : 0 ≤ round2 q := by
  unfold round2
  have := pyRound_nonneg (q * 100) (by positivity)
  positivity

/-- `round2` always produces a whole number of cents. -/
theorem round2_isCent (q : ℚ) : IsCent (round2 q) := ⟨pyRound (q * 100), rfl⟩

/-- `round2` is the identity on whole numbers of cents. -/
theorem round2_eq_self_of_isCent (q : ℚ) (hq : IsCent q) : round2 q = q := by
  obtain ⟨n, rfl⟩ := hq
  unfold round2
  have h : (n : ℚ) / 100 * 100 = (n : ℚ) := by field_simp
  rw [h, pyRound_intCast]

/-- Sums of cent amounts are cent amounts. -/
theorem IsCent.add {a b : ℚ} (ha : IsCent a) (hb : IsCent b) : IsCent (a + b) := by
  obtain ⟨m, rfl⟩ := ha
  obtain ⟨n, rfl⟩ := hb
  exact ⟨m + n, by push_cast; ring⟩

/-- Minima of cent amounts are cent amounts. -/
theorem IsCent.min {a b : ℚ} (ha : IsCent a) (hb : IsCent b) : IsCent (min a b) := by
  rcases le_total a b with h | h
  · rwa [min_eq_left h]
  · rwa [min_eq_right h]

/-! ### Concrete facts about the price tables and the fitted model -/

set_option allowUnsafeReducibility true in
attribute [local semireducible] Rat.mul Rat.add Rat.sub Rat.inv Rat.ofScientific in
/-- Every heavy-duty bar price is at least one dollar. -/
theorem heavyPrices_one_le : ∀ e ∈ HEAVY_PRICES, (1 : ℚ) ≤ e.2 := by decide

set_option allowUnsafeReducibility true in
attribute [local semireducible] Rat.mul Rat.add Rat.sub Rat.inv Rat.ofScientific in
/-- Every standard bar price is at least one dollar. -/
theorem standardPrices_one_le : ∀ e ∈ STANDARD_PRICES, (1 : ℚ) ≤ e.2 := by decide

set_option allowUnsafeReducibility true in
attribute [local semireducible] Rat.mul Rat.add Rat.sub Rat.inv Rat.ofScientific in
/-- Every catalog print price is at least one dollar. -/
theorem printPrices_one_le : ∀ e ∈ PRINT_PRICES, (1 : ℚ) ≤ e.2 := by decide

set_option allowUnsafeReducibility true in
attribute [local semireducible] Rat.mul Rat.add Rat.sub Rat.inv Rat.ofScientific in
/-- The fitted least-squares slope is positive. -/
theorem slope_pos : 0 < slope := by decide

set_option allowUnsafeReducibility true in
attribute [local semireducible] Rat.mul Rat.add Rat.sub Rat.inv Rat.ofScientific in
/-- The fitted least-squares intercept is positive. -/
theorem intercept_pos : 0 < intercept := by decide

/-- Every stretcher size in the default domain is positive. -/
theorem stretcherSizes_pos : ∀ s ∈ STRETCHER_SIZES_Z, 0 < s := by decide

/-- The default size domain has no duplicates. -/
theorem stretcherSizes_nodup : STRETCHER_SIZES_Z.Nodup := by decide

/-! ### Print pricing: claim C4 -/

/-- The fold underlying `minByPrice` returns an element of the list seen so far. -/
theorem minByPrice_foldl_mem (xs : List ((ℤ × ℤ) × ℚ)) (x : (ℤ × ℤ) × ℚ) :
    xs.foldl (fun acc y => if y.2 < acc.2 then y else acc) x ∈ x :: xs := by
  induction xs generalizing x with
  | nil => simp
  | cons y ys ih =>
    rw [List.foldl_cons]
    have h := ih (if y.2 < x.2 then y else x)
    rcases List.mem_cons.mp h with h | h
    · rw [h]
      split
      · simp
      · simp
    · exact List.mem_cons.mpr (Or.inr (List.mem_cons.mpr (Or.inr h)))

/-- The fold underlying `minByPrice` computes a price lower bound. -/
theorem minByPrice_foldl_le (xs : List ((ℤ × ℤ) × ℚ)) (x : (ℤ × ℤ) × ℚ) :
    (xs.foldl (fun acc y => if y.2 < acc.2 then y else acc) x).2 ≤ x.2 ∧
    ∀ y ∈ xs, (xs.foldl (fun acc y => if y.2 < acc.2 then y else acc) x).2 ≤ y.2 := by
  induction xs generalizing x with
  | nil => simp
  | cons y ys ih =>
    rw [List.foldl_cons]
    obtain ⟨ih1, ih2⟩ := ih (if y.2 < x.2 then y else x)
    have hx : (if y.2 < x.2 then y else x).2 ≤ x.2 := by
      split
      · next h => exact le_of_lt h
      · exact le_refl _
    have hy : (if y.2 < x.2 then y else x).2 ≤ y.2 := by
      split
      · exact le_refl _
      · next h => exact le_of_not_lt h
    refine ⟨ih1.trans hx, ?_⟩
    intro z hz
    rcases List.mem_cons.mp hz with rfl | hz
    · exact ih1.trans hy
    · exact ih2 z hz

/-- `minByPrice` returns `none` exactly on the empty list. -/
theorem minByPrice_eq_none_iff (l : List ((ℤ × ℤ) × ℚ)) :
    minByPrice l = none ↔ l = [] := by
  cases l <;> simp [minByPrice]

/-- `minByPrice` returns a member achieving the minimum price. -/
theorem minByPrice_spec (l : List ((ℤ × ℤ) × ℚ)) (e : (ℤ × ℤ) × ℚ)
    (h : minByPrice l = some e) : e ∈ l ∧ ∀ x ∈ l, e.2 ≤ x.2 := by
  cases l with
  | nil => simp [minByPrice] at h
  | cons x xs =>
    simp only [minByPrice, Option.some_inj] at h
    subst h
    refine ⟨minByPrice_foldl_mem xs x, ?_⟩
    intro z hz
    obtain ⟨h1, h2⟩ := minByPrice_foldl_le xs x
    rcases List.mem_cons.mp hz with rfl | hz
    · exact h1
    · exact h2 z hz

/-- Claim C4: the table lookup of `_print_prices` only returns catalog keys
dominating the (long, short)-normalized request, picks the minimum price
among dominating entries, is `None` exactly when no entry dominates, and the
least-squares model price (rounded to cents) is always returned. -/
theorem printPrices_spec (w h : ℚ) :
    (print_prices w h).2.1 = round2 (intercept + slope * (w * h)) ∧
    ((print_prices w h).1 = none ↔
      ∀ e ∈ PRINT_PRICES, ¬(max w h ≤ (e.1.1 : ℚ) ∧ min w h ≤ (e.1.2 : ℚ))) ∧
    (∀ p, (print_prices w h).1 = some p →
      ((print_prices w h).2.2, p) ∈ PRINT_PRICES ∧
      max w h ≤ ((print_prices w h).2.2.1 : ℚ) ∧
      min w h ≤ ((print_prices w h).2.2.2 : ℚ) ∧
      ∀ e ∈ PRINT_PRICES, max w h ≤ (e.1.1 : ℚ) → min w h ≤ (e.1.2 : ℚ) → p ≤ e.2) := by
  have hfilter : ∀ e, e ∈ PRINT_PRICES.filter
      (fun e => decide (max w h ≤ (e.1.1 : ℚ)) && decide (min w h ≤ (e.1.2 : ℚ))) ↔
      e ∈ PRINT_PRICES ∧ max w h ≤ (e.1.1 : ℚ) ∧ min w h ≤ (e.1.2 : ℚ) := by
    intro e
    simp [List.mem_filter]
  cases hm : minByPrice (PRINT_PRICES.filter
      (fun e => decide (max w h ≤ (e.1.1 : ℚ)) && decide (min w h ≤ (e.1.2 : ℚ)))) with
  | none =>
    have hnil := (minByPrice_eq_none_iff _).mp hm
    have hdom : ∀ e ∈ PRINT_PRICES, ¬(max w h ≤ (e.1.1 : ℚ) ∧ min w h ≤ (e.1.2 : ℚ)) := by
      intro e he hcontra
      have hmem : e ∈ PRINT_PRICES.filter
          (fun e => decide (max w h ≤ (e.1.1 : ℚ)) && decide (min w h ≤ (e.1.2 : ℚ))) :=
        (hfilter e).mpr ⟨he, hcontra⟩
      rw [hnil] at hmem
      exact absurd hmem (List.not_mem_nil e)
    have hpp : print_prices w h =
        (none, round2 (intercept + slope * (w * h)), (0, 0)) := by
      rw [print_prices.eq_def, hm]
    refine ⟨by rw [hpp], ?_, ?_⟩
    · rw [hpp]
      simpa using hdom
    · intro p hp
      rw [hpp] at hp
      exact absurd hp (by simp)
  | some e =>
    obtain ⟨hmem, hmin⟩ := minByPrice_spec _ _ hm
    obtain ⟨hePP, heL, heS⟩ := (hfilter e).mp hmem
    have hpp : print_prices w h =
        (some e.2, round2 (intercept + slope * (w * h)), e.1) := by
      rw [print_prices.eq_def, hm]
    refine ⟨by rw [hpp], ?_, ?_⟩
    · rw [hpp]
      constructor
      · intro hcontra
        exact absurd hcontra (by simp)
      · intro hall
        exact absurd ⟨heL, heS⟩ (hall e hePP)
    · intro p hp
      rw [hpp] at hp
      simp only [Option.some_inj] at hp
      rw [hpp, ← hp]
      refine ⟨by simpa using hePP, heL, heS, ?_⟩
      intro e' he' hL hS
      exact hmin e' ((hfilter e').mpr ⟨he', hL, hS⟩)

/-! ### Generic list lemmas -/

/-- A successful association-list lookup returns a stored pair. -/
theorem lookup_mem {l : List (ℤ × ℚ)} {k : ℤ} {v : ℚ}
    (h : l.lookup k = some v) : (k, v) ∈ l := by
  induction l with
  | nil => simp [List.lookup] at h
  | cons e t ih =>
    rw [List.lookup] at h
    split at h
    · next heq =>
      simp only [Option.some_inj] at h
      have hk : k = e.1 := beq_iff_eq.mp heq
      have hkv : (k, v) = e := by
        rw [Prod.ext_iff]
        exact ⟨hk, h.symm⟩
      exact List.mem_cons.mpr (Or.inl hkv)
    · exact List.mem_cons.mpr (Or.inr (ih h))

/-- The cross-product of duplicate-free lists is duplicate-free. -/
theorem nodup_pair_product {l1 l2 : List ℤ} (h1 : l1.Nodup) (h2 : l2.Nodup) :
    (l1.flatMap (fun w => l2.map (fun h => (w, h)))).Nodup := by
  induction l1 with
  | nil => simp
  | cons w ws ih =>
    rw [List.flatMap_cons]
    rw [List.nodup_cons] at h1
    apply List.Nodup.append
    · exact h2.map (fun a b hab => by simpa using congrArg Prod.snd hab)
    · exact ih h1.2
    · intro x hx hx'
      simp only [List.mem_map] at hx
      obtain ⟨h0, _, rfl⟩ := hx
      simp only [List.mem_flatMap, List.mem_map] at hx'
      obtain ⟨w', hw', _, _, heq⟩ := hx'
      have : w' = w := congrArg Prod.fst heq
      exact h1.1 (this ▸ hw')

/-- Membership in the cross-product. -/
theorem mem_pair_product {l1 l2 : List ℤ} {p : ℤ × ℤ} :
    p ∈ l1.flatMap (fun w => l2.map (fun h => (w, h))) ↔ p.1 ∈ l1 ∧ p.2 ∈ l2 := by
  obtain ⟨a, b⟩ := p
  simp only [List.mem_flatMap, List.mem_map, Prod.mk.injEq]
  constructor
  · rintro ⟨w, hw, h, hh, rfl, rfl⟩
    exact ⟨hw, hh⟩
  · rintro ⟨ha, hb⟩
    exact ⟨a, ha, b, hb, rfl, rfl⟩

/-- Counting in a cross-product filtered by a conjunction of per-axis
predicates factors into a product of per-axis counts. -/
theorem length_filter_pair_product (l1 l2 : List ℤ) (pa pb : ℤ → Bool) :
    ((l1.flatMap (fun w => l2.map (fun h => (w, h)))).filter
      (fun p => pa p.1 && pb p.2)).length =
    (l1.filter pa).length * (l2.filter pb).length := by
  induction l1 with
  | nil => simp
  | cons w ws ih =>
    rw [List.flatMap_cons, List.filter_append, List.length_append, ih,
      List.filter_cons]
    have hinner : ((l2.map (fun h => (w, h))).filter
        (fun p => pa p.1 && pb p.2)).length =
        if pa w then (l2.filter pb).length else 0 := by
      rw [List.filter_map]
      split
      · next hw =>
        have hcomp : ((fun p => pa (Prod.fst p) && pb (Prod.snd p)) ∘
            (fun h => (w, h))) = pb := by
          funext h
          simp [hw]
        rw [hcomp, List.length_map]
      · next hw =>
        have hcomp : ((fun p => pa (Prod.fst p) && pb (Prod.snd p)) ∘
            (fun h => (w, h))) = fun _ => false := by
          funext h
          simp [Bool.eq_false_iff.mpr hw]
        rw [hcomp, List.filter_false]
        simp
    rw [hinner]
    split
    · next hw => rw [List.length_cons]; ring
    · next hw => simp

/-- Membership in `take` implies membership. -/
theorem mem_of_mem_take {l : List α} {m : ℕ} {a : α} (h : a ∈ l.take m) : a ∈ l :=
  List.mem_of_mem_take h

/-- A two-element sorted sublist of a duplicate-free list survives
truncation as soon as its later element survives. -/
theorem pair_sublist_take {s : List α} {a b : α} {m : ℕ}
    (hab : List.Sublist [a, b] s) (hnd : s.Nodup) (hb : b ∈ s.take m) :
    List.Sublist [a, b] (s.take m) := by
  induction s generalizing m with
  | nil => simp at hb
  | cons x t ih =>
    cases m with
    | zero => simp at hb
    | succ m =>
      rw [List.take_succ_cons] at hb ⊢
      rw [List.nodup_cons] at hnd
      cases hab with
      | cons₂ _ h =>
        have hne : b ≠ a := by
          rintro rfl
          exact hnd.1 (List.singleton_sublist.mp h)
        have hbt : b ∈ t.take m := by
          rcases List.mem_cons.mp hb with rfl | hb' <;> tauto
        exact (List.singleton_sublist.mpr hbt).cons₂ a
      | cons _ h =>
        have hbt2 : b ∈ t := h.subset (by simp)
        have hbt : b ∈ t.take m := by
          rcases List.mem_cons.mp hb with rfl | hb'
          · exact absurd hbt2 hnd.1
          · exact hb'
        exact (ih h hnd.2 hbt).cons x

/-! ### Candidate evaluation: inversion lemmas -/

/-- Inversion for a surviving main-loop candidate. -/
theorem evalMain_ok_some_iff (iw ih : ℕ) (lo hi ra : ℚ) (p : ℤ × ℤ)
    (r : FrameSuggestion) :
    evalMain iw ih lo hi ra p = .ok (some r) ↔
      admissiblePair iw ih lo hi p ∧ ¬ ra = 0 ∧ r = mainSuggestion iw ih ra p := by
  unfold evalMain admissiblePair
  split_ifs with h1 h2 h3 h4 <;> simp_all <;> exact eq_comm

/-- Inversion for a main-loop candidate rejected by the DPI filter. -/
theorem evalMain_ok_none_iff (iw ih : ℕ) (lo hi ra : ℚ) (p : ℤ × ℤ) :
    evalMain iw ih lo hi ra p = .ok none ↔
      ¬ p.1 = 0 ∧ ¬ p.2 = 0 ∧
      ¬ (lo ≤ (iw : ℚ) / (p.1 : ℚ) ∧ (iw : ℚ) / (p.1 : ℚ) ≤ hi ∧
         lo ≤ (ih : ℚ) / (p.2 : ℚ) ∧ (ih : ℚ) / (p.2 : ℚ) ≤ hi) := by
  unfold evalMain
  split_ifs with h1 h2 h3 h4 <;> simp_all

/-- A main-loop evaluation error pins down its cause. -/
theorem evalMain_error_cases (iw ih : ℕ) (lo hi ra : ℚ) (p : ℤ × ℤ) (e : Err)
    (h : evalMain iw ih lo hi ra p = .error e) :
    p.1 = 0 ∨ p.2 = 0 ∨ ra = 0 := by
  unfold evalMain at h
  split_ifs at h <;> tauto

/-- Inversion for a surviving back-fill candidate. -/
theorem evalBackfill_ok_some_iff (iw ih : ℕ) (lo hi ra : ℚ) (p : ℤ × ℤ)
    (r : FrameSuggestion) :
    evalBackfill iw ih lo hi ra p = .ok (some r) ↔
      admissiblePair iw ih lo hi p ∧ ¬ ra = 0 ∧ ¬ backfillPrintOpts p = [] ∧
        r = backfillSuggestion iw ih ra p := by
  unfold evalBackfill admissiblePair
  split_ifs with h1 h2 h3 h4 h5 <;> simp_all <;> exact eq_comm

/-- Inversion for a back-fill candidate rejected by the DPI filter. -/
theorem evalBackfill_ok_none_iff (iw ih : ℕ) (lo hi ra : ℚ) (p : ℤ × ℤ) :
    evalBackfill iw ih lo hi ra p = .ok none ↔
      ¬ p.1 = 0 ∧ ¬ p.2 = 0 ∧
      ¬ (lo ≤ (iw : ℚ) / (p.1 : ℚ) ∧ (iw : ℚ) / (p.1 : ℚ) ≤ hi ∧
         lo ≤ (ih : ℚ) / (p.2 : ℚ) ∧ (ih : ℚ) / (p.2 : ℚ) ≤ hi) := by
  unfold evalBackfill
  split_ifs with h1 h2 h3 h4 h5 <;> simp_all

/-- A back-fill evaluation error pins down its cause. -/
theorem evalBackfill_error_cases (iw ih : ℕ) (lo hi ra : ℚ) (p : ℤ × ℤ) (e : Err)
    (h : evalBackfill iw ih lo hi ra p = .error e) :
    p.1 = 0 ∨ p.2 = 0 ∨ ra = 0 ∨ backfillPrintOpts p = [] := by
  unfold evalBackfill at h
  split_ifs at h <;> tauto

/-! ### Loop lemmas -/

/-- Every suggestion produced by the main loop comes from evaluating one of
its candidate pairs. -/
theorem mainLoop_ok_mem (iw ih : ℕ) (lo hi ra : ℚ) (ps : List (ℤ × ℤ))
    (l : List FrameSuggestion) (h : mainLoop iw ih lo hi ra ps = .ok l) :
    ∀ r ∈ l, ∃ p ∈ ps, evalMain iw ih lo hi ra p = .ok (some r) := by
  induction ps generalizing l with
  | nil =>
    rw [mainLoop] at h
    simp only [Except.ok.injEq] at h
    subst h
    intro r hr
    simp at hr
  | cons p rest ih2 =>
    rw [mainLoop] at h
    split at h
    · exact absurd h (by simp)
    · next heq =>
      intro r hr
      obtain ⟨q, hq, hev⟩ := ih2 l h r hr
      exact ⟨q, List.mem_cons.mpr (Or.inr hq), hev⟩
    · next r' heq =>
      split at h
      · exact absurd h (by simp)
      · next l' heq2 =>
        simp only [Except.ok.injEq] at h
        subst h
        intro r hr
        rcases List.mem_cons.mp hr with rfl | hr'
        · exact ⟨p, List.mem_cons_self p rest, heq⟩
        · obtain ⟨q, hq, hev⟩ := ih2 l' heq2 r hr'
          exact ⟨q, List.mem_cons.mpr (Or.inr hq), hev⟩

/-- The bar pairs of the main loop's output form a sublist of its input. -/
theorem mainLoop_pairs_sublist (iw ih : ℕ) (lo hi ra : ℚ) (ps : List (ℤ × ℤ))
    (l : List FrameSuggestion) (h : mainLoop iw ih lo hi ra ps = .ok l) :
    List.Sublist (l.map suggestionPair) ps := by
  induction ps generalizing l with
  | nil =>
    rw [mainLoop] at h
    simp only [Except.ok.injEq] at h
    subst h
    simp
  | cons p rest ih2 =>
    rw [mainLoop] at h
    split at h
    · exact absurd h (by simp)
    · exact (ih2 l h).cons p
    · next r' heq =>
      split at h
      · exact absurd h (by simp)
      · next l' heq2 =>
        simp only [Except.ok.injEq] at h
        subst h
        have hp : suggestionPair r' = p := by
          have hinv := (evalMain_ok_some_iff iw ih lo hi ra p r').mp heq
          rw [hinv.2.2]
          rfl
        rw [List.map_cons, hp]
        exact (ih2 l' heq2).cons₂ p

/-- The main loop never raises when its pairs are nonzero and the nominal
area is nonzero. -/
theorem mainLoop_ok_total (iw ih : ℕ) (lo hi ra : ℚ) (ps : List (ℤ × ℤ))
    (hnz : ∀ p ∈ ps, ¬ p.1 = 0 ∧ ¬ p.2 = 0) (hra : ¬ ra = 0) :
    ∃ l, mainLoop iw ih lo hi ra ps = .ok l := by
  induction ps with
  | nil => exact ⟨[], by rw [mainLoop]⟩
  | cons p rest ih2 =>
    obtain ⟨l', hl'⟩ := ih2 (fun q hq => hnz q (List.mem_cons.mpr (Or.inr hq)))
    cases hev : evalMain iw ih lo hi ra p with
    | error e =>
      rcases evalMain_error_cases iw ih lo hi ra p e hev with h0 | h0 | h0
      · exact absurd h0 (hnz p (List.mem_cons_self p rest)).1
      · exact absurd h0 (hnz p (List.mem_cons_self p rest)).2
      · exact absurd h0 hra
    | ok o =>
      cases o with
      | none => exact ⟨l', by rw [mainLoop, hev, hl']⟩
      | some r => exact ⟨r :: l', by rw [mainLoop, hev, hl']⟩

/-- The back-fill loop appends its new suggestions after the accumulator;
their pairs come, in order, from the unskipped remainder. -/
theorem backfillLoop_ok_append (iw ih : ℕ) (lo hi ra : ℚ) (skip : List (ℤ × ℤ))
    (maxS : ℕ) (rem : List (ℤ × ℤ)) (acc out : List FrameSuggestion)
    (h : backfillLoop iw ih lo hi ra skip maxS rem acc = .ok out) :
    ∃ app, out = acc ++ app ∧
      List.Sublist (app.map suggestionPair)
        (rem.filter (fun p => decide (¬ p ∈ skip))) ∧
      ∀ r ∈ app, ∃ p ∈ rem, ¬ p ∈ skip ∧
        evalBackfill iw ih lo hi ra p = .ok (some r) := by
  induction rem generalizing acc out with
  | nil =>
    rw [backfillLoop] at h
    simp only [Except.ok.injEq] at h
    subst h
    exact ⟨[], by simp⟩
  | cons p rest ih2 =>
    rw [backfillLoop] at h
    split at h
    · next hskip =>
      obtain ⟨app, h1, h2, h3⟩ := ih2 acc out h
      refine ⟨app, h1, ?_, ?_⟩
      · rwa [List.filter_cons_of_neg (by simpa using hskip)]
      · intro r hr
        obtain ⟨q, hq, hqs, hev⟩ := h3 r hr
        exact ⟨q, List.mem_cons.mpr (Or.inr hq), hqs, hev⟩
    · next hskip =>
      split at h
      · exact absurd h (by simp)
      · next heq =>
        obtain ⟨app, h1, h2, h3⟩ := ih2 acc out h
        refine ⟨app, h1, ?_, ?_⟩
        · rw [List.filter_cons_of_pos (by simpa using hskip)]
          exact h2.cons p
        · intro r hr
          obtain ⟨q, hq, hqs, hev⟩ := h3 r hr
          exact ⟨q, List.mem_cons.mpr (Or.inr hq), hqs, hev⟩
      · next r' heq =>
        have hp : suggestionPair r' = p := by
          have hinv := (evalBackfill_ok_some_iff iw ih lo hi ra p r').mp heq
          rw [hinv.2.2.2]
          rfl
        split at h
        · simp only [Except.ok.injEq] at h
          subst h
          refine ⟨[r'], rfl, ?_, ?_⟩
          · rw [List.filter_cons_of_pos (by simpa using hskip), List.map_cons,
              List.map_nil, hp]
            exact (List.nil_sublist _).cons₂ p
          · intro r hr
            rcases List.mem_cons.mp hr with rfl | hr'
            · exact ⟨p, List.mem_cons_self p rest, hskip, heq⟩
            · simp at hr'
        · obtain ⟨app, h1, h2, h3⟩ := ih2 (acc ++ [r']) out h
          refine ⟨r' :: app, by rw [h1]; simp, ?_, ?_⟩
          · rw [List.filter_cons_of_pos (by simpa using hskip), List.map_cons, hp]
            exact h2.cons₂ p
          · intro r hr
            rcases List.mem_cons.mp hr with rfl | hr'
            · exact ⟨p, List.mem_cons_self p rest, hskip, heq⟩
            · obtain ⟨q, hq, hqs, hev⟩ := h3 r hr'
              exact ⟨q, List.mem_cons.mpr (Or.inr hq), hqs, hev⟩

/-- Length of the back-fill loop's output: it stops at the quota or
exhausts the admissible unskipped remainder. -/
theorem backfillLoop_length (iw ih : ℕ) (lo hi ra : ℚ) (skip : List (ℤ × ℤ))
    (maxS : ℕ) (rem : List (ℤ × ℤ)) (acc out : List FrameSuggestion)
    (hacc : acc.length < maxS)
    (h : backfillLoop iw ih lo hi ra skip maxS rem acc = .ok out) :
    out.length = min maxS (acc.length +
      (rem.filter (fun p => decide (¬ p ∈ skip ∧
        admissiblePair iw ih lo hi p))).length) := by
  induction rem generalizing acc out with
  | nil =>
    rw [backfillLoop] at h
    simp only [Except.ok.injEq] at h
    subst h
    simp
    omega
  | cons p rest ih2 =>
    rw [backfillLoop] at h
    split at h
    · next hskip =>
      rw [ih2 acc out hacc h, List.filter_cons_of_neg (by simp [hskip])]
    · next hskip =>
      split at h
      · exact absurd h (by simp)
      · next heq =>
        have hnadm : ¬ admissiblePair iw ih lo hi p := by
          have hinv := (evalBackfill_ok_none_iff iw ih lo hi ra p).mp heq
          unfold admissiblePair
          tauto
        rw [ih2 acc out hacc h, List.filter_cons_of_neg (by simp [hnadm])]
      · next r' heq =>
        have hadm : admissiblePair iw ih lo hi p :=
          ((evalBackfill_ok_some_iff iw ih lo hi ra p r').mp heq).1
        rw [List.filter_cons_of_pos (by simp [hskip, hadm]), List.length_cons]
        split at h
        · next hquota =>
          simp only [Except.ok.injEq] at h
          subst h
          rw [List.length_append] at hquota ⊢
          simp only [List.length_cons, List.length_nil] at *
          omega
        · next hquota =>
          rw [List.length_append] at hquota
          simp only [List.length_cons, List.length_nil] at hquota
          have hacc' : (acc ++ [r']).length < maxS := by
            rw [List.length_append]
            simp only [List.length_cons, List.length_nil]
            omega
          rw [ih2 (acc ++ [r']) out hacc' h, List.length_append]
          simp only [List.length_cons, List.length_nil]
          omega

/-- The back-fill loop never raises when every unskipped pair is nonzero
with nonempty print options and the nominal area is nonzero. -/
theorem backfillLoop_ok_total (iw ih : ℕ) (lo hi ra : ℚ) (skip : List (ℤ × ℤ))
    (maxS : ℕ) (rem : List (ℤ × ℤ)) (acc : List FrameSuggestion)
    (hall : ∀ p ∈ rem, ¬ p ∈ skip →
      ¬ p.1 = 0 ∧ ¬ p.2 = 0 ∧ ¬ backfillPrintOpts p = [])
    (hra : ¬ ra = 0) :
    ∃ out, backfillLoop iw ih lo hi ra skip maxS rem acc = .ok out := by
  induction rem generalizing acc with
  | nil => exact ⟨acc, by rw [backfillLoop]⟩
  | cons p rest ih2 =>
    have hrest : ∀ p ∈ rest, ¬ p ∈ skip →
        ¬ p.1 = 0 ∧ ¬ p.2 = 0 ∧ ¬ backfillPrintOpts p = [] :=
      fun q hq => hall q (List.mem_cons.mpr (Or.inr hq))
    by_cases hskip : p ∈ skip
    · obtain ⟨out, hout⟩ := ih2 acc hrest
      exact ⟨out, by rw [backfillLoop, if_pos hskip]; exact hout⟩
    · obtain ⟨h1, h2, h3⟩ := hall p (List.mem_cons_self p rest) hskip
      cases hev : evalBackfill iw ih lo hi ra p with
      | error e =>
        rcases evalBackfill_error_cases iw ih lo hi ra p e hev with h0 | h0 | h0 | h0
          <;> tauto
      | ok o =>
        cases o with
        | none =>
          obtain ⟨out, hout⟩ := ih2 acc hrest
          exact ⟨out, by rw [backfillLoop, if_neg hskip, hev]; exact hout⟩
        | some r =>
          by_cases hq : maxS ≤ (acc ++ [r]).length
          · refine ⟨acc ++ [r], ?_⟩
            rw [backfillLoop, if_neg hskip, hev]
            exact if_pos hq
          · obtain ⟨out, hout⟩ := ih2 (acc ++ [r]) hrest
            refine ⟨out, ?_⟩
            rw [backfillLoop, if_neg hskip, hev]
            exact (if_neg hq).trans hout

/-! ### Pipeline lemmas and claim C1 -/

/-- Basic fields of a main-loop suggestion. -/
theorem mainSuggestion_fields (iw ih : ℕ) (ra : ℚ) (p : ℤ × ℤ) :
    (mainSuggestion iw ih ra p).bar_w = p.1 ∧
    (mainSuggestion iw ih ra p).bar_h = p.2 ∧
    (mainSuggestion iw ih ra p).dpi_x = (iw : ℚ) / (p.1 : ℚ) ∧
    (mainSuggestion iw ih ra p).dpi_y = (ih : ℚ) / (p.2 : ℚ) :=
  ⟨rfl, rfl, rfl, rfl⟩

/-- Basic fields of a back-fill suggestion. -/
theorem backfillSuggestion_fields (iw ih : ℕ) (ra : ℚ) (p : ℤ × ℤ) :
    (backfillSuggestion iw ih ra p).bar_w = p.1 ∧
    (backfillSuggestion iw ih ra p).bar_h = p.2 ∧
    (backfillSuggestion iw ih ra p).dpi_x = (iw : ℚ) / (p.1 : ℚ) ∧
    (backfillSuggestion iw ih ra p).dpi_y = (ih : ℚ) / (p.2 : ℚ) :=
  ⟨rfl, rfl, rfl, rfl⟩

/-- Every entry of the pre-sort candidate list arises from a successful
main-loop or back-fill evaluation against the resolved DPI band. -/
theorem preSortResults_mem (iw ih : ℕ) (td tw th : Option ℚ) (tol : ℚ)
    (maxS : ℕ) (uf : Bool) (fs : ℕ) (dpi : ℚ) (c : List FrameSuggestion)
    (h : preSortResults iw ih td tw th tol maxS uf fs = .ok c)
    (hdpi : resolveDpi iw ih td tw th = .ok dpi) :
    ∀ r ∈ c, ∃ p,
      evalMain iw ih (dpiBandLo dpi tol) (dpiBandHi dpi tol)
        (reqArea iw ih dpi) p = .ok (some r) ∨
      evalBackfill iw ih (dpiBandLo dpi tol) (dpiBandHi dpi tol)
        (reqArea iw ih dpi) p = .ok (some r) := by
  unfold preSortResults at h
  split at h
  · exact Except.noConfusion h
  · next d hd =>
    rw [hdpi] at hd
    injection hd with hd'
    subst hd'
    by_cases h0 : dpi = 0
    · rw [if_pos h0] at h
      exact Except.noConfusion h
    · rw [if_neg h0] at h
      split at h
      · exact Except.noConfusion h
      · next frames hframes =>
        split at h
        · exact Except.noConfusion h
        · next cands hcands =>
          by_cases hcond : uf = true ∧ cands.length < maxS
          · rw [if_pos hcond] at h
            obtain ⟨app, rfl, hsub, hmem⟩ :=
              backfillLoop_ok_append _ _ _ _ _ _ _ _ _ _ h
            intro r hr
            rcases List.mem_append.mp hr with hr' | hr'
            · obtain ⟨p, _, hev⟩ := mainLoop_ok_mem _ _ _ _ _ _ _ hcands r hr'
              exact ⟨p, Or.inl hev⟩
            · obtain ⟨p, _, _, hev⟩ := hmem r hr'
              exact ⟨p, Or.inr hev⟩
          · rw [if_neg hcond] at h
            injection h with h'
            subst h'
            intro r hr
            obtain ⟨p, _, hev⟩ := mainLoop_ok_mem _ _ _ _ _ _ _ hcands r hr
            exact ⟨p, Or.inl hev⟩

/-- Claim C1: every tuple returned by `suggest_stretcher_frames` carries
`dpi_x = img_width_px / bar_w` and `dpi_y = img_height_px / bar_h`, and both
values lie inclusively inside the acceptance band around the resolved
target DPI — for brute-force, fan and back-fill candidates alike. -/
theorem suggest_dpi_band (iw ih : ℕ) (td tw th : Option ℚ) (tol : ℚ)
    (maxS : ℕ) (uf : Bool) (fs : ℕ) (dpi : ℚ) (l : List FrameSuggestion)
    (r : FrameSuggestion)
    (hdpi : resolveDpi iw ih td tw th = .ok dpi)
    (hok : suggest_stretcher_frames iw ih td tw th tol maxS uf fs = .ok l)
    (hr : r ∈ l) :
    r.dpi_x = (iw : ℚ) / (r.bar_w : ℚ) ∧ r.dpi_y = (ih : ℚ) / (r.bar_h : ℚ) ∧
    dpiBandLo dpi tol ≤ r.dpi_x ∧ r.dpi_x ≤ dpiBandHi dpi tol ∧
    dpiBandLo dpi tol ≤ r.dpi_y ∧ r.dpi_y ≤ dpiBandHi dpi tol := by
  unfold suggest_stretcher_frames at hok
  split at hok
  · exact absurd hok (by simp)
  · next c hc =>
    split_ifs at hok with hh
    injection hok with hok'
    subst hok'
    have hrc : r ∈ c := by
      have h1 : r ∈ c.insertionSort (keyRel ((iw : ℚ) / (ih : ℚ))) :=
        mem_of_mem_take hr
      exact (List.perm_insertionSort _ c).subset h1
    obtain ⟨p, hev⟩ := preSortResults_mem _ _ _ _ _ _ _ _ _ _ _ hc hdpi r hrc
    rcases hev with hev | hev
    · obtain ⟨hadm, hra, hrr⟩ :=
        (evalMain_ok_some_iff _ _ _ _ _ _ _).mp hev
      subst hrr
      unfold admissiblePair at hadm
      exact ⟨rfl, rfl, hadm.2.2.1, hadm.2.2.2.1, hadm.2.2.2.2.1, hadm.2.2.2.2.2⟩
    · obtain ⟨hadm, hra, hopts, hrr⟩ :=
        (evalBackfill_ok_some_iff _ _ _ _ _ _ _).mp hev
      subst hrr
      unfold admissiblePair at hadm
      exact ⟨rfl, rfl, hadm.2.2.1, hadm.2.2.2.1, hadm.2.2.2.2.1, hadm.2.2.2.2.2⟩

/-! ### Claim C10: fan mode with a sub-half-inch dimension divides by zero -/

/-- Rounding a value in `(0, 1/2)` gives zero. -/
theorem pyRound_eq_zero_of_small (q : ℚ) (h1 : 0 < q) (h2 : q < 1/2) :
    pyRound q = 0 := by
  unfold pyRound
  rw [ratFloor_eq_floor]
  have hfl : ⌊q⌋ = 0 := Int.floor_eq_zero_iff.mpr ⟨le_of_lt h1, by linarith⟩
  rw [hfl]
  rw [if_pos (by push_cast; linarith)]

/-- The fan neighbourhood of zero is nonempty for a positive span. -/
theorem nearest_sizes_zero_ne_nil (fs : ℕ) (hfs : 1 ≤ fs) :
    ¬ nearest_sizes 0 fs = [] := by
  unfold nearest_sizes
  have hpy : pyRound 0 = 0 := by
    have h := pyRound_intCast 0
    simpa using h
  rw [hpy]
  have hbelow : STRETCHER_SIZES_Z.filter (fun s => decide (s ≤ 0)) = [] := by
    rw [List.filter_eq_nil_iff]
    intro s hs
    have := stretcherSizes_pos s hs
    simp
    omega
  have habove : STRETCHER_SIZES_Z.filter (fun s => decide ((0:ℤ) ≤ s)) =
      STRETCHER_SIZES_Z := by
    rw [List.filter_eq_self]
    intro s hs
    have := stretcherSizes_pos s hs
    simp
    omega
  rw [hbelow, habove]
  have hslice : pySliceLast [] fs = [] := by
    unfold pySliceLast
    split <;> simp
  rw [hslice, List.nil_append]
  intro hcon
  have hlen := congrArg List.length hcon
  rw [List.length_insertionSort, List.length_nil] at hlen
  have htake : ¬ (STRETCHER_SIZES_Z.take fs) = [] := by
    rw [List.take_eq_nil_iff]
    push_neg
    constructor
    · omega
    · decide
  rw [List.length_eq_zero] at hlen
  exact htake ((List.dedup_eq_nil _).mp hlen)

/-- Claim C10: with `use_fan = True` and a positive target width below half
an inch (and any positive fan span), `suggest_stretcher_frames` crashes
with `ZeroDivisionError`: the fixed side rounds to a zero-inch bar and the
per-candidate DPI computation divides the pixel width by zero. -/
theorem suggest_fan_small_width_crash (iw ih : ℕ) (tw tol : ℚ) (maxS fs : ℕ)
    (hiw : 0 < iw) (hih : 0 < ih) (h1 : 0 < tw) (h2 : tw < 1/2) (hfs : 1 ≤ fs) :
    suggest_stretcher_frames iw ih none (some tw) none tol maxS true fs =
      .error .zeroDivision := by
  have hdpi : resolveDpi iw ih none (some tw) none = .ok ((iw : ℚ) / tw) := by
    unfold resolveDpi
    rw [if_neg (by simp)]
    dsimp only
    rw [if_neg (not_le.mpr h1)]
  have hdne : ¬ ((iw : ℚ) / tw) = 0 := by
    have hiw' : (0 : ℚ) < (iw : ℚ) := by exact_mod_cast hiw
    exact ne_of_gt (div_pos hiw' h1)
  have hih0 : ¬ ih = 0 := Nat.pos_iff_ne_zero.mp hih
  have har : ¬ ((iw : ℚ) / (ih : ℚ)) = 0 := by
    have hiw' : (0 : ℚ) < (iw : ℚ) := by exact_mod_cast hiw
    have hih' : (0 : ℚ) < (ih : ℚ) := by exact_mod_cast hih
    exact ne_of_gt (div_pos hiw' hih')
  have hpyr : pyRound tw = 0 := pyRound_eq_zero_of_small tw h1 h2
  have hfan : fan_candidates iw ih (some tw) none (some ((iw : ℚ) / tw)) fs =
      .ok ((nearest_sizes 0 fs).map (fun h => ((0:ℤ), h))) := by
    unfold fan_candidates
    rw [if_neg hih0]
    dsimp only
    rw [if_neg har, hpyr]
    norm_num
  obtain ⟨h₀, t, hnt⟩ :=
    List.exists_cons_of_ne_nil (nearest_sizes_zero_ne_nil fs hfs)
  have hmap : (nearest_sizes 0 fs).map (fun h => ((0:ℤ), h)) =
      ((0:ℤ), h₀) :: t.map (fun h => ((0:ℤ), h)) := by
    rw [hnt, List.map_cons]
  have hmain : ∀ lo hi ra, mainLoop iw ih lo hi ra
      (((0:ℤ), h₀) :: t.map (fun h => ((0:ℤ), h))) = .error .zeroDivision := by
    intro lo hi ra
    have hev : evalMain iw ih lo hi ra ((0:ℤ), h₀) = .error .zeroDivision := by
      unfold evalMain
      rw [if_pos rfl]
    rw [mainLoop, hev]
  have hpre : preSortResults iw ih none (some tw) none tol maxS true fs =
      .error .zeroDivision := by
    unfold preSortResults
    rw [hdpi]
    dsimp only
    rw [if_neg hdne]
    rw [hfan]
    rw [hmap]
    rw [if_pos rfl]
    dsimp only
    rw [hmain]
  unfold suggest_stretcher_frames
  rw [hpre]

/-! ### Claim C7: candidate pairs and the size domain -/

/-- Every fan-neighbourhood size comes from the stretcher size domain. -/
theorem nearest_sizes_subset (x : ℚ) (fan : ℕ) :
    ∀ s ∈ nearest_sizes x fan, s ∈ STRETCHER_SIZES_Z := by
  intro s hs
  unfold nearest_sizes at hs
  have h1 := (List.perm_insertionSort (· ≤ ·) _).subset hs
  rw [List.mem_dedup] at h1
  rcases List.mem_append.mp h1 with h2 | h2
  · unfold pySliceLast at h2
    split at h2
    · exact (List.mem_filter.mp h2).1
    · exact (List.mem_filter.mp (List.mem_of_mem_drop h2)).1
  · exact (List.mem_filter.mp (mem_of_mem_take h2)).1

/-- Characterization of the pairs produced by `_fan_candidates`. -/
theorem fan_candidates_mem (iw ih : ℕ) (tw th td : Option ℚ) (fs : ℕ)
    (F : List (ℤ × ℤ)) (hfan : fan_candidates iw ih tw th td fs = .ok F)
    (p : ℤ × ℤ) (hp : p ∈ F) :
    (∃ w, tw = some w ∧ p.1 = pyRound w ∧ p.2 ∈ STRETCHER_SIZES_Z) ∨
    (tw = none ∧ ∃ hq, th = some hq ∧ p.2 = pyRound hq ∧ p.1 ∈ STRETCHER_SIZES_Z) ∨
    (tw = none ∧ th = none ∧ p.1 ∈ STRETCHER_SIZES_Z ∧ p.2 ∈ STRETCHER_SIZES_Z) := by
  unfold fan_candidates at hfan
  by_cases hih : ih = 0
  · rw [if_pos hih] at hfan
    exact Except.noConfusion hfan
  · rw [if_neg hih] at hfan
    cases tw with
    | some w =>
      dsimp only at hfan
      by_cases har : (iw : ℚ) / (ih : ℚ) = 0
      · rw [if_pos har] at hfan
        exact Except.noConfusion hfan
      · rw [if_neg har] at hfan
        injection hfan with hF
        subst hF
        obtain ⟨s, hs, heq⟩ := List.mem_map.mp hp
        refine Or.inl ⟨w, rfl, ?_, ?_⟩
        · rw [← heq]
        · rw [← heq]
          exact nearest_sizes_subset _ _ s hs
    | none =>
      cases th with
      | some hq =>
        dsimp only at hfan
        injection hfan with hF
        subst hF
        obtain ⟨s, hs, heq⟩ := List.mem_map.mp hp
        refine Or.inr (Or.inl ⟨rfl, hq, rfl, ?_, ?_⟩)
        · rw [← heq]
        · rw [← heq]
          exact nearest_sizes_subset _ _ s hs
      | none =>
        cases td with
        | some d =>
          dsimp only at hfan
          by_cases hd : d = 0
          · rw [if_pos hd] at hfan
            exact Except.noConfusion hfan
          · rw [if_neg hd] at hfan
            injection hfan with hF
            subst hF
            obtain ⟨w, hw, s, hs, heq⟩ := by
              simpa using hp
            refine Or.inr (Or.inr ⟨rfl, rfl, ?_, ?_⟩)
            · rw [← heq]
              exact nearest_sizes_subset _ _ w hw
            · rw [← heq]
              exact nearest_sizes_subset _ _ s hs
        | none =>
          dsimp only at hfan
          exact Except.noConfusion hfan

/-- Detailed origin of each pre-sort candidate: a main-loop survivor from
the selected candidate source, or a back-fill survivor from the brute-force
domain outside the already-evaluated set (fan mode only). -/
theorem preSortResults_cases (iw ih : ℕ) (td tw th : Option ℚ) (tol : ℚ)
    (maxS : ℕ) (uf : Bool) (fs : ℕ) (dpi : ℚ) (c : List FrameSuggestion)
    (h : preSortResults iw ih td tw th tol maxS uf fs = .ok c)
    (hdpi : resolveDpi iw ih td tw th = .ok dpi) :
    ∀ r ∈ c, ∃ frames,
      (if uf = true then fan_candidates iw ih tw th (some dpi) fs
        else Except.ok FRAME_CANDIDATES) = .ok frames ∧
      ((∃ p ∈ frames, evalMain iw ih (dpiBandLo dpi tol) (dpiBandHi dpi tol)
          (reqArea iw ih dpi) p = .ok (some r)) ∨
       (uf = true ∧ ∃ p ∈ FRAME_CANDIDATES, ¬ p ∈ frames ∧
          evalBackfill iw ih (dpiBandLo dpi tol) (dpiBandHi dpi tol)
            (reqArea iw ih dpi) p = .ok (some r))) := by
  unfold preSortResults at h
  split at h
  · exact Except.noConfusion h
  · next d hd =>
    rw [hdpi] at hd
    injection hd with hd'
    subst hd'
    by_cases h0 : dpi = 0
    · rw [if_pos h0] at h
      exact Except.noConfusion h
    · rw [if_neg h0] at h
      split at h
      · exact Except.noConfusion h
      · next frames hframes =>
        have hframes' : (if uf = true then fan_candidates iw ih tw th (some dpi) fs
            else Except.ok FRAME_CANDIDATES) = .ok frames := hframes
        split at h
        · exact Except.noConfusion h
        · next cands hcands =>
          by_cases hcond : uf = true ∧ cands.length < maxS
          · rw [if_pos hcond] at h
            obtain ⟨app, rfl, hsub, hmem⟩ :=
              backfillLoop_ok_append _ _ _ _ _ _ _ _ _ _ h
            intro r hr
            refine ⟨frames, hframes', ?_⟩
            rcases List.mem_append.mp hr with hr' | hr'
            · obtain ⟨p, hpmem, hev⟩ := mainLoop_ok_mem _ _ _ _ _ _ _ hcands r hr'
              exact Or.inl ⟨p, hpmem, hev⟩
            · obtain ⟨p, hpmem, hps, hev⟩ := hmem r hr'
              exact Or.inr ⟨hcond.1, p, hpmem, hps, hev⟩
          · rw [if_neg hcond] at h
            injection h with h'
            subst h'
            intro r hr
            obtain ⟨p, hpmem, hev⟩ := mainLoop_ok_mem _ _ _ _ _ _ _ hcands r hr
            exact ⟨frames, hframes', Or.inl ⟨p, hpmem, hev⟩⟩

/-- Claim C7 (amended): every returned pair lies in SizeDomain × SizeDomain
except that in fan mode with an explicit target width (resp. height) the
fixed side of fan-originated candidates equals `int(round(target))`, which
need not belong to the domain; the fanned side is always in the domain. -/
theorem suggest_pairs_domain (iw ih : ℕ) (td tw th : Option ℚ) (tol : ℚ)
    (maxS : ℕ) (uf : Bool) (fs : ℕ) (dpi : ℚ) (l : List FrameSuggestion)
    (r : FrameSuggestion)
    (hdpi : resolveDpi iw ih td tw th = .ok dpi)
    (hok : suggest_stretcher_frames iw ih td tw th tol maxS uf fs = .ok l)
    (hr : r ∈ l) :
    (r.bar_w ∈ STRETCHER_SIZES_Z ∧ r.bar_h ∈ STRETCHER_SIZES_Z) ∨
    (uf = true ∧ ∃ w, tw = some w ∧ r.bar_w = pyRound w ∧
      r.bar_h ∈ STRETCHER_SIZES_Z) ∨
    (uf = true ∧ tw = none ∧ ∃ hq, th = some hq ∧ r.bar_h = pyRound hq ∧
      r.bar_w ∈ STRETCHER_SIZES_Z) := by
  unfold suggest_stretcher_frames at hok
  split at hok
  · exact absurd hok (by simp)
  · next c hc =>
    split_ifs at hok with hh
    injection hok with hok'
    subst hok'
    have hrc : r ∈ c := by
      have h1 : r ∈ c.insertionSort (keyRel ((iw : ℚ) / (ih : ℚ))) :=
        mem_of_mem_take hr
      exact (List.perm_insertionSort _ c).subset h1
    obtain ⟨frames, hframes, hcase⟩ :=
      preSortResults_cases _ _ _ _ _ _ _ _ _ _ _ hc hdpi r hrc
    rcases hcase with ⟨p, hpmem, hev⟩ | ⟨huf, p, hpmem, hps, hev⟩
    · have hrp : suggestionPair r = p := by
        have hinv := (evalMain_ok_some_iff _ _ _ _ _ _ _).mp hev
        rw [hinv.2.2]
        rfl
      have hw : r.bar_w = p.1 := congrArg Prod.fst hrp
      have hhh : r.bar_h = p.2 := congrArg Prod.snd hrp
      by_cases huf : uf = true
      · rw [if_pos huf] at hframes
        rcases fan_candidates_mem _ _ _ _ _ _ _ hframes p hpmem with
          ⟨w, hwsome, hp1, hp2⟩ | ⟨htwnone, hq, hthsome, hp2, hp1⟩ |
          ⟨htwnone, hthnone, hp1, hp2⟩
        · exact Or.inr (Or.inl ⟨huf, w, hwsome, by rw [hw, hp1], by rw [hhh]; exact hp2⟩)
        · exact Or.inr (Or.inr ⟨huf, htwnone, hq, hthsome, by rw [hhh, hp2],
            by rw [hw]; exact hp1⟩)
        · exact Or.inl ⟨by rw [hw]; exact hp1, by rw [hhh]; exact hp2⟩
      · rw [if_neg huf] at hframes
        injection hframes with hframes'
        subst hframes'
        have := mem_pair_product.mp hpmem
        exact Or.inl ⟨by rw [hw]; exact this.1, by rw [hhh]; exact this.2⟩
    · have hrp : suggestionPair r = p := by
        have hinv := (evalBackfill_ok_some_iff _ _ _ _ _ _ _).mp hev
        rw [hinv.2.2.2]
        rfl
      have hw : r.bar_w = p.1 := congrArg Prod.fst hrp
      have hhh : r.bar_h = p.2 := congrArg Prod.snd hrp
      have := mem_pair_product.mp hpmem
      exact Or.inl ⟨by rw [hw]; exact this.1, by rw [hhh]; exact this.2⟩

/-! ### Cost characterization lemmas for claim C3 -/

/-- The table-price component of `_print_prices`, as the price of the
minimum dominating entry. -/
theorem print_prices_fst (w h : ℚ) :
    (print_prices w h).1 = (minByPrice (PRINT_PRICES.filter
      (fun e => decide (max w h ≤ (e.1.1 : ℚ)) &&
        decide (min w h ≤ (e.1.2 : ℚ))))).map (fun e => e.2) := by
  rw [print_prices.eq_def]
  split
  · next e heq => rw [heq]; rfl
  · next heq => rw [heq]; rfl

/-- The model-price component of `_print_prices`. -/
theorem print_prices_model (w h : ℚ) :
    (print_prices w h).2.1 = round2 (intercept + slope * (w * h)) := by
  rw [print_prices.eq_def]
  split <;> rfl

/-- Any priced bar length costs at least one dollar. -/
theorem bar_price_ge_one (k : ℤ) (hv : Bool) (v : ℚ)
    (h : bar_price k hv = some v) : 1 ≤ v := by
  unfold bar_price at h
  cases hv with
  | true => exact heavyPrices_one_le (k, v) (lookup_mem (by simpa using h))
  | false => exact standardPrices_one_le (k, v) (lookup_mem (by simpa using h))

/-- Any table price returned by `_print_prices` is at least one dollar. -/
theorem print_prices_tbl_ge_one (w h t : ℚ)
    (ht : (print_prices w h).1 = some t) : 1 ≤ t := by
  rw [print_prices_fst] at ht
  cases hm : minByPrice (PRINT_PRICES.filter
      (fun e => decide (max w h ≤ (e.1.1 : ℚ)) &&
        decide (min w h ≤ (e.1.2 : ℚ)))) with
  | none =>
    rw [hm] at ht
    exact absurd ht (by simp)
  | some e =>
    rw [hm] at ht
    simp only [Option.map_some', Option.some_inj] at ht
    have he := (minByPrice_spec _ _ hm).1
    have h1 := printPrices_one_le e (List.mem_filter.mp he).1
    rw [← ht]
    exact h1

/-- A grade cost is absent exactly when one of the two lengths is
unpriced. -/
theorem mainGradeCost_eq_none_iff (p : ℤ × ℤ) (hv : Bool) :
    mainGradeCost p hv = none ↔
      bar_price p.1 hv = none ∨ bar_price p.2 hv = none := by
  unfold mainGradeCost
  cases bar_price p.1 hv <;> cases bar_price p.2 hv <;> simp

/-- A present grade cost is twice the sum of the two bar prices, rounded. -/
theorem mainGradeCost_some (p : ℤ × ℤ) (hv : Bool) (v : ℚ)
    (h : mainGradeCost p hv = some v) :
    ∃ a b, bar_price p.1 hv = some a ∧ bar_price p.2 hv = some b ∧
      v = round2 (2 * (a + b)) := by
  unfold mainGradeCost at h
  cases ha : bar_price p.1 hv <;> cases hb : bar_price p.2 hv <;>
    rw [ha, hb] at h <;> simp at h
  exact ⟨_, _, rfl, rfl, h.symm⟩

/-- A present grade cost is positive. -/
theorem mainGradeCost_pos (p : ℤ × ℤ) (hv : Bool) (v : ℚ)
    (h : mainGradeCost p hv = some v) : 0 < v := by
  obtain ⟨a, b, ha, hb, rfl⟩ := mainGradeCost_some p hv v h
  have h1 := bar_price_ge_one p.1 hv a ha
  have h2 := bar_price_ge_one p.2 hv b hb
  have h3 := (round2_bounds (2 * (a + b))).1
  linarith

/-- Bar prices are all at least a dollar, so the truthiness-guarded grade
cost of the back-fill loop coincides with the main loop's. -/
theorem backfillGradeCost_eq (p : ℤ × ℤ) (hv : Bool) :
    backfillGradeCost p hv = mainGradeCost p hv := by
  unfold backfillGradeCost mainGradeCost
  cases ha : bar_price p.1 hv with
  | none => rfl
  | some a =>
    cases hb : bar_price p.2 hv with
    | none => rfl
    | some b =>
      have ha1 := bar_price_ge_one p.1 hv a ha
      have hb1 := bar_price_ge_one p.2 hv b hb
      dsimp only
      rw [if_pos ⟨ne_of_gt (lt_of_lt_of_le zero_lt_one ha1),
        ne_of_gt (lt_of_lt_of_le zero_lt_one hb1)⟩]

/-- `cheaperBar` is absent exactly when both grade costs are absent. -/
theorem cheaperBar_eq_none_iff (r : FrameSuggestion) :
    cheaperBar r = none ↔ r.heavy_cost = none ∧ r.std_cost = none := by
  unfold cheaperBar
  cases r.heavy_cost <;> cases r.std_cost <;> simp

/-- `cheaperBar` is a whole number of cents when its components are. -/
theorem cheaperBar_isCent (r : FrameSuggestion)
    (h1 : ∀ v, r.heavy_cost = some v → IsCent v)
    (h2 : ∀ v, r.std_cost = some v → IsCent v) :
    ∀ b, cheaperBar r = some b → IsCent b := by
  unfold cheaperBar
  cases hh : r.heavy_cost with
  | none =>
    cases hs : r.std_cost with
    | none => intro b hb; exact absurd hb (by simp)
    | some sc =>
      intro b hb
      simp only [Option.some_inj] at hb
      exact hb ▸ h2 sc hs
  | some hc =>
    cases hs : r.std_cost with
    | none =>
      intro b hb
      simp only [Option.some_inj] at hb
      exact hb ▸ h1 hc hh
    | some sc =>
      intro b hb
      simp only [Option.some_inj] at hb
      exact hb ▸ IsCent.min (h1 hc hh) (h2 sc hs)

/-- `cheaperPrint` is a whole number of cents when its components are. -/
theorem cheaperPrint_isCent (r : FrameSuggestion)
    (h1 : IsCent r.print_cost_model)
    (h2 : ∀ v, r.print_cost_tbl = some v → IsCent v) :
    IsCent (cheaperPrint r) := by
  unfold cheaperPrint
  cases ht : r.print_cost_tbl with
  | none => exact h1
  | some t => exact IsCent.min (h2 t ht) h1

/-- The shipped model print price is positive for positive dimensions. -/
theorem print_model_shipped_pos (w h : ℚ) (hw : 0 < w) (hh : 0 < h) :
    0 < round2 ((print_prices w h).2.1 + PRINT_SHIPPING_USD) := by
  rw [print_prices_model]
  have h1 := slope_pos
  have h2 := intercept_pos
  have hx : 0 ≤ intercept + slope * (w * h) := by nlinarith [mul_pos hw hh]
  have h3 : 0 ≤ round2 (intercept + slope * (w * h)) := round2_nonneg _ hx
  have h4 := (round2_bounds (round2 (intercept + slope * (w * h)) +
    PRINT_SHIPPING_USD)).1
  have h5 : PRINT_SHIPPING_USD = 10 := rfl
  rw [h5] at h4 ⊢
  linarith

/-- Generic form of the `final_total` contract, given the reconstruction
equation and that all cost components are whole cents. -/
theorem final_total_formula (r : FrameSuggestion)
    (hf : r.final_total = (cheaperBar r).map (fun b => round2 (b + cheaperPrint r)))
    (hHc : ∀ v, r.heavy_cost = some v → IsCent v)
    (hSc : ∀ v, r.std_cost = some v → IsCent v)
    (hMc : IsCent r.print_cost_model)
    (hTc : ∀ v, r.print_cost_tbl = some v → IsCent v) :
    ∀ t, r.final_total = some t →
      ∃ b, cheaperBar r = some b ∧ t = b + cheaperPrint r := by
  intro t ht
  rw [hf] at ht
  cases hb : cheaperBar r with
  | none =>
    rw [hb] at ht
    exact absurd ht (by simp)
  | some b =>
    rw [hb] at ht
    simp only [Option.map_some', Option.some_inj] at ht
    refine ⟨b, rfl, ?_⟩
    rw [← ht]
    exact round2_eq_self_of_isCent _ ((cheaperBar_isCent r hHc hSc b hb).add
      (cheaperPrint_isCent r hMc hTc))

/-- The back-fill bar cost coincides with the main loop's choice, since all
computed grade costs are positive. -/
theorem backfillBarCost_eq (p : ℤ × ℤ) :
    backfillBarCost p =
      (match mainGradeCost p true, mainGradeCost p false with
        | some hc, some sc => some (min hc sc)
        | some hc, none => some hc
        | none, sc => sc) := by
  unfold backfillBarCost
  rw [backfillGradeCost_eq, backfillGradeCost_eq]
  cases hH : mainGradeCost p true with
  | none =>
    cases hS : mainGradeCost p false with
    | none => simp [truthy]
    | some sc => simp [truthy]
  | some hc =>
    have hp1 := mainGradeCost_pos p true hc hH
    cases hS : mainGradeCost p false with
    | none => simp [truthy, ne_of_gt hp1]
    | some sc =>
      have hp2 := mainGradeCost_pos p false sc hS
      simp [truthy, ne_of_gt hp1, ne_of_gt hp2]

/-- For positive bar pairs every print-cost candidate is truthy, so the
back-fill generator keeps the table cost (when present) and the model
cost. -/
theorem backfillPrintOpts_eq (p : ℤ × ℤ) (hw : 0 < p.1) (hh : 0 < p.2) :
    backfillPrintOpts p =
      (match (print_prices ((p.1 : ℚ) + 2 * PRINT_BORDER_PER_SIDE_IN)
          ((p.2 : ℚ) + 2 * PRINT_BORDER_PER_SIDE_IN)).1 with
        | some tb => [round2 (tb + PRINT_SHIPPING_USD)]
        | none => []) ++
      [round2 ((print_prices ((p.1 : ℚ) + 2 * PRINT_BORDER_PER_SIDE_IN)
          ((p.2 : ℚ) + 2 * PRINT_BORDER_PER_SIDE_IN)).2.1 + PRINT_SHIPPING_USD)] := by
  have hw' : (0 : ℚ) < (p.1 : ℚ) + 2 * PRINT_BORDER_PER_SIDE_IN := by
    have : (0 : ℚ) < (p.1 : ℚ) := by exact_mod_cast hw
    have hB : PRINT_BORDER_PER_SIDE_IN = 3/2 := by norm_num [PRINT_BORDER_PER_SIDE_IN]
    rw [hB]
    linarith
  have hh' : (0 : ℚ) < (p.2 : ℚ) + 2 * PRINT_BORDER_PER_SIDE_IN := by
    have : (0 : ℚ) < (p.2 : ℚ) := by exact_mod_cast hh
    have hB : PRINT_BORDER_PER_SIDE_IN = 3/2 := by norm_num [PRINT_BORDER_PER_SIDE_IN]
    rw [hB]
    linarith
  have hpcm := print_model_shipped_pos _ _ hw' hh'
  unfold backfillPrintOpts
  rw [if_pos (ne_of_gt hpcm)]
  cases hT : (print_prices ((p.1 : ℚ) + 2 * PRINT_BORDER_PER_SIDE_IN)
      ((p.2 : ℚ) + 2 * PRINT_BORDER_PER_SIDE_IN)).1 with
  | none => simp [truthy]
  | some tb =>
    have htb := print_prices_tbl_ge_one _ _ _ hT
    have h1 : (0 : ℚ) < round2 (tb + PRINT_SHIPPING_USD) := by
      have h2 := (round2_bounds (tb + PRINT_SHIPPING_USD)).1
      have h5 : PRINT_SHIPPING_USD = 10 := rfl
      rw [h5] at h2 ⊢
      linarith
    dsimp only
    rw [if_pos (ne_of_gt (lt_of_lt_of_le zero_lt_one htb))]
    simp [truthy, ne_of_gt h1]

/-- Claim C3 holds for every main-loop suggestion tuple. -/
theorem mainSuggestion_costSpec (iw ih : ℕ) (ra : ℚ) (p : ℤ × ℤ) :
    CostSpec (mainSuggestion iw ih ra p) := by
  have hHc : ∀ v, (mainSuggestion iw ih ra p).heavy_cost = some v → IsCent v := by
    intro v hv
    obtain ⟨a, b, _, _, rfl⟩ := mainGradeCost_some p true v hv
    exact round2_isCent _
  have hSc : ∀ v, (mainSuggestion iw ih ra p).std_cost = some v → IsCent v := by
    intro v hv
    obtain ⟨a, b, _, _, rfl⟩ := mainGradeCost_some p false v hv
    exact round2_isCent _
  have hTc : ∀ v, (mainSuggestion iw ih ra p).print_cost_tbl = some v → IsCent v := by
    intro v hv
    have hv' : ((print_prices ((p.1 : ℚ) + 2 * PRINT_BORDER_PER_SIDE_IN)
        ((p.2 : ℚ) + 2 * PRINT_BORDER_PER_SIDE_IN)).1).map
        (fun t => round2 (t + PRINT_SHIPPING_USD)) = some v := hv
    cases hT : (print_prices ((p.1 : ℚ) + 2 * PRINT_BORDER_PER_SIDE_IN)
        ((p.2 : ℚ) + 2 * PRINT_BORDER_PER_SIDE_IN)).1 with
    | none =>
      rw [hT] at hv'
      exact absurd hv' (by simp)
    | some tb =>
      rw [hT] at hv'
      simp only [Option.map_some', Option.some_inj] at hv'
      rw [← hv']
      exact round2_isCent _
  have hfinal : (mainSuggestion iw ih ra p).final_total =
      (cheaperBar (mainSuggestion iw ih ra p)).map
        (fun b => round2 (b + cheaperPrint (mainSuggestion iw ih ra p))) := rfl
  refine ⟨?_, ?_, rfl, ?_, ?_, ?_, ?_, ?_⟩
  · rw [hfinal, Option.map_eq_none']
    exact cheaperBar_eq_none_iff _
  · exact final_total_formula _ hfinal hHc hSc (round2_isCent _) hTc
  · intro pt hpt
    have hpt' : ((print_prices ((p.1 : ℚ) + 2 * PRINT_BORDER_PER_SIDE_IN)
        ((p.2 : ℚ) + 2 * PRINT_BORDER_PER_SIDE_IN)).1).map
        (fun t => round2 (t + PRINT_SHIPPING_USD)) = some pt := hpt
    cases hT : (print_prices ((p.1 : ℚ) + 2 * PRINT_BORDER_PER_SIDE_IN)
        ((p.2 : ℚ) + 2 * PRINT_BORDER_PER_SIDE_IN)).1 with
    | none =>
      rw [hT] at hpt'
      exact absurd hpt' (by simp)
    | some tb =>
      rw [hT] at hpt'
      simp only [Option.map_some', Option.some_inj] at hpt'
      exact ⟨tb, hT, hpt'.symm⟩
  · exact fun hc => mainGradeCost_some p true hc
  · exact fun sc => mainGradeCost_some p false sc
  · exact mainGradeCost_eq_none_iff p true
  · exact mainGradeCost_eq_none_iff p false

/-- Claim C3 holds for every back-fill suggestion tuple over positive bar
pairs (as all brute-force pairs are). -/
theorem backfillSuggestion_costSpec (iw ih : ℕ) (ra : ℚ) (p : ℤ × ℤ)
    (hw : 0 < p.1) (hh : 0 < p.2) :
    CostSpec (backfillSuggestion iw ih ra p) := by
  have hheavy : (backfillSuggestion iw ih ra p).heavy_cost = mainGradeCost p true :=
    backfillGradeCost_eq p true
  have hstd : (backfillSuggestion iw ih ra p).std_cost = mainGradeCost p false :=
    backfillGradeCost_eq p false
  have hHc : ∀ v, (backfillSuggestion iw ih ra p).heavy_cost = some v → IsCent v := by
    intro v hv
    rw [hheavy] at hv
    obtain ⟨a, b, _, _, rfl⟩ := mainGradeCost_some p true v hv
    exact round2_isCent _
  have hSc : ∀ v, (backfillSuggestion iw ih ra p).std_cost = some v → IsCent v := by
    intro v hv
    rw [hstd] at hv
    obtain ⟨a, b, _, _, rfl⟩ := mainGradeCost_some p false v hv
    exact round2_isCent _
  have htbl : ∀ pt, (backfillSuggestion iw ih ra p).print_cost_tbl = some pt →
      ∃ tb, (print_prices ((p.1 : ℚ) + 2 * PRINT_BORDER_PER_SIDE_IN)
        ((p.2 : ℚ) + 2 * PRINT_BORDER_PER_SIDE_IN)).1 = some tb ∧
        pt = round2 (tb + PRINT_SHIPPING_USD) := by
    intro pt hpt
    have hpt' : (match (print_prices ((p.1 : ℚ) + 2 * PRINT_BORDER_PER_SIDE_IN)
        ((p.2 : ℚ) + 2 * PRINT_BORDER_PER_SIDE_IN)).1 with
      | some t => if t ≠ 0 then some (round2 (t + PRINT_SHIPPING_USD)) else none
      | none => none) = some pt := hpt
    cases hT : (print_prices ((p.1 : ℚ) + 2 * PRINT_BORDER_PER_SIDE_IN)
        ((p.2 : ℚ) + 2 * PRINT_BORDER_PER_SIDE_IN)).1 with
    | none =>
      rw [hT] at hpt'
      exact absurd hpt' (by simp)
    | some tb =>
      rw [hT] at hpt'
      have htb := print_prices_tbl_ge_one _ _ _ hT
      dsimp only at hpt'
      rw [if_pos (ne_of_gt (lt_of_lt_of_le zero_lt_one htb))] at hpt'
      simp only [Option.some_inj] at hpt'
      exact ⟨tb, rfl, hpt'.symm⟩
  have hTc : ∀ v, (backfillSuggestion iw ih ra p).print_cost_tbl = some v →
      IsCent v := by
    intro v hv
    obtain ⟨tb, _, rfl⟩ := htbl v hv
    exact round2_isCent _
  have hchosen : (match backfillPrintOpts p with
      | c :: cs => cs.foldl min c
      | [] => (0 : ℚ)) = cheaperPrint (backfillSuggestion iw ih ra p) := by
    rw [backfillPrintOpts_eq p hw hh]
    unfold cheaperPrint
    cases hT : (print_prices ((p.1 : ℚ) + 2 * PRINT_BORDER_PER_SIDE_IN)
        ((p.2 : ℚ) + 2 * PRINT_BORDER_PER_SIDE_IN)).1 with
    | none =>
      have hfield : (backfillSuggestion iw ih ra p).print_cost_tbl = none := by
        have : (backfillSuggestion iw ih ra p).print_cost_tbl =
            (match (print_prices ((p.1 : ℚ) + 2 * PRINT_BORDER_PER_SIDE_IN)
              ((p.2 : ℚ) + 2 * PRINT_BORDER_PER_SIDE_IN)).1 with
            | some t => if t ≠ 0 then some (round2 (t + PRINT_SHIPPING_USD)) else none
            | none => none) := rfl
        rw [this, hT]
      rw [hfield]
      rfl
    | some tb =>
      have htb := print_prices_tbl_ge_one _ _ _ hT
      have hfield : (backfillSuggestion iw ih ra p).print_cost_tbl =
          some (round2 (tb + PRINT_SHIPPING_USD)) := by
        have h0 : (backfillSuggestion iw ih ra p).print_cost_tbl =
            (match (print_prices ((p.1 : ℚ) + 2 * PRINT_BORDER_PER_SIDE_IN)
              ((p.2 : ℚ) + 2 * PRINT_BORDER_PER_SIDE_IN)).1 with
            | some t => if t ≠ 0 then some (round2 (t + PRINT_SHIPPING_USD)) else none
            | none => none) := rfl
        rw [h0, hT]
        dsimp only
        rw [if_pos (ne_of_gt (lt_of_lt_of_le zero_lt_one htb))]
      rw [hfield]
      rfl
  have hbar : cheaperBar (backfillSuggestion iw ih ra p) = backfillBarCost p := by
    rw [backfillBarCost_eq]
    unfold cheaperBar
    rw [hheavy, hstd]
  have hfinal : (backfillSuggestion iw ih ra p).final_total =
      (cheaperBar (backfillSuggestion iw ih ra p)).map
        (fun b => round2 (b + cheaperPrint (backfillSuggestion iw ih ra p))) := by
    have h0 : (backfillSuggestion iw ih ra p).final_total =
        (match backfillBarCost p with
          | some b =>
            if b ≠ 0 then
              some (round2 (b +
                match backfillPrintOpts p with
                | c :: cs => cs.foldl min c
                | [] => 0))
            else none
          | none => none) := rfl
    rw [h0, hbar, hchosen]
    cases hb : backfillBarCost p with
    | none => rfl
    | some b =>
      have hbpos : 0 < b := by
        rw [backfillBarCost_eq] at hb
        cases hH : mainGradeCost p true with
        | none =>
          cases hS : mainGradeCost p false with
          | none =>
            rw [hH, hS] at hb
            exact absurd hb (by simp)
          | some sc =>
            rw [hH, hS] at hb
            simp only [Option.some_inj] at hb
            exact hb ▸ mainGradeCost_pos p false sc hS
        | some hc =>
          have hp1 := mainGradeCost_pos p true hc hH
          cases hS : mainGradeCost p false with
          | none =>
            rw [hH, hS] at hb
            simp only [Option.some_inj] at hb
            exact hb ▸ hp1
          | some sc =>
            have hp2 := mainGradeCost_pos p false sc hS
            rw [hH, hS] at hb
            simp only [Option.some_inj] at hb
            rw [← hb]
            exact lt_min hp1 hp2
      dsimp only
      rw [if_pos (ne_of_gt hbpos)]
      rfl
  refine ⟨?_, ?_, rfl, ?_, ?_, ?_, ?_, ?_⟩
  · rw [hfinal, Option.map_eq_none']
    exact cheaperBar_eq_none_iff _
  · exact final_total_formula _ hfinal hHc hSc (round2_isCent _) hTc
  · exact htbl
  · intro hc hhc
    rw [hheavy] at hhc
    exact mainGradeCost_some p true hc hhc
  · intro sc hsc
    rw [hstd] at hsc
    exact mainGradeCost_some p false sc hsc
  · rw [hheavy]
    exact mainGradeCost_eq_none_iff p true
  · rw [hstd]
    exact mainGradeCost_eq_none_iff p false

/-- Claim C3: in every returned tuple, `final_total` is absent exactly when
no bar price is available in either grade table; when present it is the
cheapest available bar cost plus the cheaper of the table and model print
prices, where only the print prices include the flat shipping surcharge. -/
theorem suggest_cost_contract (iw ih : ℕ) (td tw th : Option ℚ) (tol : ℚ)
    (maxS : ℕ) (uf : Bool) (fs : ℕ) (dpi : ℚ) (l : List FrameSuggestion)
    (r : FrameSuggestion)
    (hdpi : resolveDpi iw ih td tw th = .ok dpi)
    (hok : suggest_stretcher_frames iw ih td tw th tol maxS uf fs = .ok l)
    (hr : r ∈ l) : CostSpec r := by
  unfold suggest_stretcher_frames at hok
  split at hok
  · exact absurd hok (by simp)
  · next c hc =>
    split_ifs at hok with hh
    injection hok with hok'
    subst hok'
    have hrc : r ∈ c := by
      have h1 : r ∈ c.insertionSort (keyRel ((iw : ℚ) / (ih : ℚ))) :=
        mem_of_mem_take hr
      exact (List.perm_insertionSort _ c).subset h1
    obtain ⟨frames, hframes, hcase⟩ :=
      preSortResults_cases _ _ _ _ _ _ _ _ _ _ _ hc hdpi r hrc
    rcases hcase with ⟨p, hpmem, hev⟩ | ⟨huf, p, hpmem, hps, hev⟩
    · obtain ⟨hadm, hra, hrr⟩ := (evalMain_ok_some_iff _ _ _ _ _ _ _).mp hev
      rw [hrr]
      exact mainSuggestion_costSpec _ _ _ _
    · obtain ⟨hadm, hra, hopts, hrr⟩ :=
        (evalBackfill_ok_some_iff _ _ _ _ _ _ _).mp hev
      rw [hrr]
      have hp := mem_pair_product.mp hpmem
      exact backfillSuggestion_costSpec _ _ _ _
        (stretcherSizes_pos _ hp.1) (stretcherSizes_pos _ hp.2)

/-! ### Ranking and stability: claim C2 -/

/-- The fan neighbourhood has no duplicates. -/
theorem nearest_sizes_nodup (x : ℚ) (fan : ℕ) : (nearest_sizes x fan).Nodup := by
  unfold nearest_sizes
  exact ((List.perm_insertionSort _ _).nodup_iff).mpr (List.nodup_dedup _)

/-- The full brute-force candidate pool has no duplicates. -/
theorem frameCandidates_nodup : FRAME_CANDIDATES.Nodup :=
  nodup_pair_product stretcherSizes_nodup stretcherSizes_nodup

/-- The fan candidate list has no duplicates. -/
theorem fan_candidates_nodup (iw ih : ℕ) (tw th td : Option ℚ) (fs : ℕ)
    (F : List (ℤ × ℤ)) (hfan : fan_candidates iw ih tw th td fs = .ok F) :
    F.Nodup := by
  unfold fan_candidates at hfan
  by_cases hih : ih = 0
  · rw [if_pos hih] at hfan
    exact Except.noConfusion hfan
  · rw [if_neg hih] at hfan
    cases tw with
    | some w =>
      dsimp only at hfan
      by_cases har : (iw : ℚ) / (ih : ℚ) = 0
      · rw [if_pos har] at hfan
        exact Except.noConfusion hfan
      · rw [if_neg har] at hfan
        injection hfan with hF
        subst hF
        exact (nearest_sizes_nodup _ _).map
          (fun a b hab => by simpa using congrArg Prod.snd hab)
    | none =>
      cases th with
      | some hq =>
        dsimp only at hfan
        injection hfan with hF
        subst hF
        exact (nearest_sizes_nodup _ _).map
          (fun a b hab => by simpa using congrArg Prod.fst hab)
      | none =>
        cases td with
        | some d =>
          dsimp only at hfan
          by_cases hd : d = 0
          · rw [if_pos hd] at hfan
            exact Except.noConfusion hfan
          · rw [if_neg hd] at hfan
            injection hfan with hF
            subst hF
            exact nodup_pair_product (nearest_sizes_nodup _ _)
              (nearest_sizes_nodup _ _)
        | none =>
          dsimp only at hfan
          exact Except.noConfusion hfan

/-- The pre-sort candidate list carries pairwise-distinct bar pairs. -/
theorem preSortResults_pairs_nodup (iw ih : ℕ) (td tw th : Option ℚ) (tol : ℚ)
    (maxS : ℕ) (uf : Bool) (fs : ℕ) (c : List FrameSuggestion)
    (h : preSortResults iw ih td tw th tol maxS uf fs = .ok c) :
    (c.map suggestionPair).Nodup := by
  unfold preSortResults at h
  split at h
  · exact Except.noConfusion h
  · next d hd =>
    by_cases h0 : d = 0
    · rw [if_pos h0] at h
      exact Except.noConfusion h
    · rw [if_neg h0] at h
      split at h
      · exact Except.noConfusion h
      · next frames hframes =>
        have hfnd : frames.Nodup := by
          by_cases huf : uf = true
          · rw [if_pos huf] at hframes
            exact fan_candidates_nodup _ _ _ _ _ _ _ hframes
          · rw [if_neg huf] at hframes
            injection hframes with hframes'
            subst hframes'
            exact frameCandidates_nodup
        split at h
        · exact Except.noConfusion h
        · next cands hcands =>
          have hcnd : (cands.map suggestionPair).Nodup :=
            (mainLoop_pairs_sublist _ _ _ _ _ _ _ hcands).nodup hfnd
          by_cases hcond : uf = true ∧ cands.length < maxS
          · rw [if_pos hcond] at h
            obtain ⟨app, rfl, hsub, hmem⟩ :=
              backfillLoop_ok_append _ _ _ _ _ _ _ _ _ _ h
            have hand : (app.map suggestionPair).Nodup :=
              hsub.nodup (frameCandidates_nodup.filter _)
            rw [List.map_append]
            rw [List.nodup_append]
            refine ⟨hcnd, hand, ?_⟩
            intro x hx1 hx2
            have hxf : x ∈ frames :=
              (mainLoop_pairs_sublist _ _ _ _ _ _ _ hcands).subset hx1
            have hxnf : ¬ x ∈ frames := by
              have := hsub.subset hx2
              have hmem2 := List.mem_filter.mp this
              simpa using hmem2.2
            exact hxnf hxf
          · rw [if_neg hcond] at h
            injection h with h'
            subst h'
            exact hcnd

/-- Claim C2: the returned list has length at most `max_suggestions`, is
sorted by the composite (primary, secondary) ranking key — so the primary
key is non-decreasing across consecutive entries — and full-key ties keep
their pre-sort enumeration order (stability). -/
theorem suggest_ranking (iw ih : ℕ) (td tw th : Option ℚ) (tol : ℚ)
    (maxS : ℕ) (uf : Bool) (fs : ℕ) (c l : List FrameSuggestion)
    (hpre : preSortResults iw ih td tw th tol maxS uf fs = .ok c)
    (hok : suggest_stretcher_frames iw ih td tw th tol maxS uf fs = .ok l) :
    l.length ≤ maxS ∧
    l.Sorted (keyRel ((iw : ℚ) / (ih : ℚ))) ∧
    List.Chain' (fun a b => primaryKey a ≤ primaryKey b) l ∧
    (∀ a b, primaryKey a = primaryKey b →
      secondaryKey ((iw : ℚ) / (ih : ℚ)) a = secondaryKey ((iw : ℚ) / (ih : ℚ)) b →
      List.Sublist [a, b] c → b ∈ l → List.Sublist [a, b] l) := by
  unfold suggest_stretcher_frames at hok
  rw [hpre] at hok
  dsimp only at hok
  by_cases hih : ih = 0
  · rw [if_pos hih] at hok
    exact Except.noConfusion hok
  · rw [if_neg hih] at hok
    injection hok with hok'
    subst hok'
    have hsorted : (c.insertionSort (keyRel ((iw : ℚ) / (ih : ℚ)))).Sorted
        (keyRel ((iw : ℚ) / (ih : ℚ))) := List.sorted_insertionSort _ c
    have hlsorted : (List.take maxS (c.insertionSort
        (keyRel ((iw : ℚ) / (ih : ℚ))))).Sorted (keyRel ((iw : ℚ) / (ih : ℚ))) :=
      hsorted.sublist (List.take_sublist _ _)
    refine ⟨List.length_take_le _ _, hlsorted, ?_, ?_⟩
    · refine List.Pairwise.chain' (hlsorted.imp ?_)
      intro a b hab
      rcases hab with hlt | ⟨heq, _⟩
      · exact le_of_lt hlt
      · exact le_of_eq heq
    · intro a b hpk hsk hsubc hbl
      have hkey : keyRel ((iw : ℚ) / (ih : ℚ)) a b :=
        Or.inr ⟨hpk, le_of_eq hsk⟩
      have hpair : List.Sublist [a, b]
          (c.insertionSort (keyRel ((iw : ℚ) / (ih : ℚ)))) :=
        List.pair_sublist_insertionSort hkey hsubc
      have hnd : (c.insertionSort (keyRel ((iw : ℚ) / (ih : ℚ)))).Nodup :=
        ((List.perm_insertionSort _ c).nodup_iff).mpr
          ((preSortResults_pairs_nodup _ _ _ _ _ _ _ _ _ _ hpre).of_map)
      exact pair_sublist_take hpair hnd hbl

/-! ### Fan back-fill: claim C5 -/

/-- Claim C5 (amended): in fan mode, when the fan neighbourhood yields
`k < max_suggestions` survivors, the back-fill re-scans the brute-force
domain excluding the already-evaluated fan pairs under the identical DPI
filter, the pre-sort list is the fan survivors followed by the back-fill
appendees, and the returned length is
`min(max_suggestions, k + admissible brute-force pairs outside the fan set)`. -/
theorem suggest_fan_backfill_contract (iw ih : ℕ) (td tw th : Option ℚ)
    (tol : ℚ) (maxS fs : ℕ) (dpi : ℚ) (F : List (ℤ × ℤ))
    (k_list c l : List FrameSuggestion)
    (hdpi : resolveDpi iw ih td tw th = .ok dpi)
    (hfan : fan_candidates iw ih tw th (some dpi) fs = .ok F)
    (hmain : mainLoop iw ih (dpiBandLo dpi tol) (dpiBandHi dpi tol)
      (reqArea iw ih dpi) F = .ok k_list)
    (hk : k_list.length < maxS)
    (hpre : preSortResults iw ih td tw th tol maxS true fs = .ok c)
    (hok : suggest_stretcher_frames iw ih td tw th tol maxS true fs = .ok l) :
    l.length = min maxS (k_list.length +
      backfillAdmissibleCount iw ih (dpiBandLo dpi tol) (dpiBandHi dpi tol) F) ∧
    (∃ app, c = k_list ++ app ∧
      ∀ r ∈ app, ∃ p ∈ FRAME_CANDIDATES, ¬ p ∈ F ∧
        evalBackfill iw ih (dpiBandLo dpi tol) (dpiBandHi dpi tol)
          (reqArea iw ih dpi) p = .ok (some r)) ∧
    (∀ r ∈ k_list, suggestionPair r ∈ F) := by
  have hpreB := hpre
  unfold preSortResults at hpre
  rw [hdpi] at hpre
  dsimp only at hpre
  by_cases h0 : dpi = 0
  · rw [if_pos h0] at hpre
    exact absurd hpre (by simp)
  · rw [if_neg h0] at hpre
    rw [if_pos rfl] at hpre
    rw [hfan] at hpre
    dsimp only at hpre
    rw [hmain] at hpre
    dsimp only at hpre
    rw [if_pos ⟨rfl, hk⟩] at hpre
    have hlen := backfillLoop_length _ _ _ _ _ _ _ _ _ _ hk hpre
    obtain ⟨app, happ, hsub, hmem⟩ := backfillLoop_ok_append _ _ _ _ _ _ _ _ _ _ hpre
    unfold suggest_stretcher_frames at hok
    rw [hpreB] at hok
    dsimp only at hok
    by_cases hih : ih = 0
    · rw [if_pos hih] at hok
      exact Except.noConfusion hok
    · rw [if_neg hih] at hok
      injection hok with hok'
      subst hok'
      refine ⟨?_, ⟨app, happ, hmem⟩, ?_⟩
      · rw [List.length_take, List.length_insertionSort, hlen]
        have hcount : (FRAME_CANDIDATES.filter (fun p => decide (¬ p ∈ F ∧
            admissiblePair iw ih (dpiBandLo dpi tol) (dpiBandHi dpi tol) p))).length =
            backfillAdmissibleCount iw ih (dpiBandLo dpi tol) (dpiBandHi dpi tol) F :=
          rfl
        rw [hcount]
        omega
      · intro r hr
        have hsubl := mainLoop_pairs_sublist _ _ _ _ _ _ _ hmain
        exact hsubl.subset (List.mem_map.mpr ⟨r, hr, rfl⟩)

/-! ### Input contract: claim C6 -/

/-- `resolveDpi` raises `ValueError` exactly on malformed inputs. -/
theorem resolveDpi_error_iff (iw ih : ℕ) (td tw th : Option ℚ) :
    resolveDpi iw ih td tw th = .error .valueError ↔ malformedInput td tw th := by
  unfold resolveDpi malformedInput
  rcases td with _ | d <;> rcases tw with _ | w <;> rcases th with _ | hq <;>
    simp only [Option.isSome_none, Option.isSome_some, if_true, if_false] <;>
    norm_num
  · constructor
    · intro himp
      by_contra hlt
      exact Except.noConfusion (himp (lt_of_not_le hlt))
    · intro hle hpos
      exact absurd hle (not_le.mpr hpos)
  · constructor
    · intro himp
      by_contra hlt
      exact Except.noConfusion (himp (lt_of_not_le hlt))
    · intro hle hpos
      exact absurd hle (not_le.mpr hpos)
  · exact fun hcon => Except.noConfusion hcon

/-- `resolveDpi` either succeeds or raises `ValueError`. -/
theorem resolveDpi_cases (iw ih : ℕ) (td tw th : Option ℚ) :
    (∃ dpi, resolveDpi iw ih td tw th = .ok dpi) ∨
      resolveDpi iw ih td tw th = .error .valueError := by
  unfold resolveDpi
  rcases td with _ | d <;> rcases tw with _ | w <;> rcases th with _ | hq <;>
    simp only [Option.isSome_none, Option.isSome_some, if_true, if_false] <;>
    norm_num
  · by_cases h : hq ≤ 0
    · exact Or.inr fun hpos => absurd h (not_le.mpr hpos)
    · exact Or.inl ⟨_, by rw [if_neg h]⟩
  · by_cases h : w ≤ 0
    · exact Or.inr fun hpos => absurd h (not_le.mpr hpos)
    · exact Or.inl ⟨_, by rw [if_neg h]⟩

/-- A well-formed request resolves to a DPI value. -/
theorem resolveDpi_ok_of_not_malformed (iw ih : ℕ) (td tw th : Option ℚ)
    (h : ¬ malformedInput td tw th) :
    ∃ dpi, resolveDpi iw ih td tw th = .ok dpi := by
  rcases resolveDpi_cases iw ih td tw th with hok | herr
  · exact hok
  · exact absurd ((resolveDpi_error_iff iw ih td tw th).mp herr) h

/-- For positive pixel dimensions, the resolved DPI is nonzero unless a
zero DPI was supplied directly. -/
theorem resolveDpi_ne_zero (iw ih : ℕ) (td tw th : Option ℚ) (dpi : ℚ)
    (hiw : 0 < iw) (hih : 0 < ih)
    (hdz : ∀ d, td = some d → ¬ d = 0)
    (hok : resolveDpi iw ih td tw th = .ok dpi) : ¬ dpi = 0 := by
  unfold resolveDpi at hok
  rcases td with _ | d
  · rcases tw with _ | w
    · rcases th with _ | hq
      · simp at hok
      · norm_num at hok
        split_ifs at hok with hq0
        injection hok with hok'
        subst hok'
        have h1 : ((ih : ℚ)) ≠ 0 := by
          exact_mod_cast Nat.pos_iff_ne_zero.mp hih
        exact div_ne_zero h1 (ne_of_gt (lt_of_not_le hq0))
    · rcases th with _ | hq
      · norm_num at hok
        split_ifs at hok with hw0
        injection hok with hok'
        subst hok'
        have h1 : ((iw : ℚ)) ≠ 0 := by
          exact_mod_cast Nat.pos_iff_ne_zero.mp hiw
        exact div_ne_zero h1 (ne_of_gt (lt_of_not_le hw0))
      · norm_num at hok
        exact Except.noConfusion hok
  · rcases tw with _ | w
    · rcases th with _ | hq
      · norm_num at hok
        exact hok ▸ hdz d rfl
      · norm_num at hok
        exact Except.noConfusion hok
    · rcases th with _ | hq <;> norm_num at hok <;>
        exact Except.noConfusion hok

/-- `_fan_candidates` succeeds whenever the aspect ratio and DPI are
nonzero. -/
theorem fan_candidates_ok (iw ih : ℕ) (tw th : Option ℚ) (d : ℚ) (fs : ℕ)
    (hih : ¬ ih = 0) (har : ¬ (iw : ℚ) / (ih : ℚ) = 0) (hd : ¬ d = 0) :
    ∃ F, fan_candidates iw ih tw th (some d) fs = .ok F := by
  unfold fan_candidates
  rw [if_neg hih]
  rcases tw with _ | w
  · rcases th with _ | hq
    · dsimp only
      rw [if_neg hd]
      exact ⟨_, rfl⟩
    · exact ⟨_, rfl⟩
  · dsimp only
    rw [if_neg har]
    exact ⟨_, rfl⟩

/-- For a positive bar pair the print-cost generator is never empty. -/
theorem backfillPrintOpts_ne_nil (p : ℤ × ℤ) (hw : 0 < p.1) (hh : 0 < p.2) :
    ¬ backfillPrintOpts p = [] := by
  rw [backfillPrintOpts_eq p hw hh]
  intro hcon
  have hlen := congrArg List.length hcon
  rw [List.length_append] at hlen
  simp at hlen

/-- Claim C6 (amended): `suggest_stretcher_frames` raises `ValueError`
exactly on malformed inputs; on any other input with positive pixel
dimensions it returns a list without raising — provided no division by
zero occurs, i.e. a directly supplied DPI is nonzero and, in fan mode, a
supplied physical dimension does not round to a zero-inch bar. -/
theorem suggest_error_contract (iw ih : ℕ) (td tw th : Option ℚ) (tol : ℚ)
    (maxS : ℕ) (uf : Bool) (fs : ℕ)
    (hiw : 0 < iw) (hih : 0 < ih)
    (hdz : ∀ d, td = some d → ¬ d = 0)
    (hfw : uf = true → ∀ w, tw = some w → ¬ pyRound w = 0)
    (hfh : uf = true → ∀ hq, th = some hq → ¬ pyRound hq = 0) :
    (malformedInput td tw th →
      suggest_stretcher_frames iw ih td tw th tol maxS uf fs = .error .valueError) ∧
    (¬ malformedInput td tw th →
      ∃ l, suggest_stretcher_frames iw ih td tw th tol maxS uf fs = .ok l) := by
  constructor
  · intro hmal
    have herr := (resolveDpi_error_iff iw ih td tw th).mpr hmal
    unfold suggest_stretcher_frames preSortResults
    rw [herr]
  · intro hmal
    obtain ⟨dpi, hdpi⟩ := resolveDpi_ok_of_not_malformed iw ih td tw th hmal
    have h0 := resolveDpi_ne_zero iw ih td tw th dpi hiw hih hdz hdpi
    have hihz : ¬ ih = 0 := Nat.pos_iff_ne_zero.mp hih
    have har : ¬ (iw : ℚ) / (ih : ℚ) = 0 := by
      have h1 : (0 : ℚ) < (iw : ℚ) := by exact_mod_cast hiw
      have h2 : (0 : ℚ) < (ih : ℚ) := by exact_mod_cast hih
      exact ne_of_gt (div_pos h1 h2)
    have hra : ¬ reqArea iw ih dpi = 0 := by
      unfold reqArea
      have h1 : ((iw : ℚ)) ≠ 0 := by exact_mod_cast Nat.pos_iff_ne_zero.mp hiw
      have h2 : ((ih : ℚ)) ≠ 0 := by exact_mod_cast hihz
      exact mul_ne_zero (div_ne_zero h1 h0) (div_ne_zero h2 h0)
    have hframes : ∃ F, (if uf = true then
        fan_candidates iw ih tw th (some dpi) fs
        else Except.ok FRAME_CANDIDATES) = .ok F ∧
        ∀ p ∈ F, ¬ p.1 = 0 ∧ ¬ p.2 = 0 := by
      by_cases huf : uf = true
      · obtain ⟨F, hF⟩ := fan_candidates_ok iw ih tw th dpi fs hihz har h0
        refine ⟨F, by rw [if_pos huf]; exact hF, ?_⟩
        intro p hp
        rcases fan_candidates_mem _ _ _ _ _ _ _ hF p hp with
          ⟨w, hwsome, hp1, hp2⟩ | ⟨_, hq, hqsome, hp2, hp1⟩ | ⟨_, _, hp1, hp2⟩
        · exact ⟨hp1 ▸ hfw huf w hwsome,
            ne_of_gt (stretcherSizes_pos _ hp2)⟩
        · exact ⟨ne_of_gt (stretcherSizes_pos _ hp1),
            hp2 ▸ hfh huf hq hqsome⟩
        · exact ⟨ne_of_gt (stretcherSizes_pos _ hp1),
            ne_of_gt (stretcherSizes_pos _ hp2)⟩
      · refine ⟨FRAME_CANDIDATES, by rw [if_neg huf], ?_⟩
        intro p hp
        have hmem := mem_pair_product.mp hp
        exact ⟨ne_of_gt (stretcherSizes_pos _ hmem.1),
          ne_of_gt (stretcherSizes_pos _ hmem.2)⟩
    obtain ⟨F, hF, hFnz⟩ := hframes
    obtain ⟨cands, hcands⟩ := mainLoop_ok_total iw ih (dpiBandLo dpi tol)
      (dpiBandHi dpi tol) (reqArea iw ih dpi) F hFnz hra
    have hbf : ∀ p ∈ FRAME_CANDIDATES, ¬ p ∈ F →
        ¬ p.1 = 0 ∧ ¬ p.2 = 0 ∧ ¬ backfillPrintOpts p = [] := by
      intro p hp _
      have hmem := mem_pair_product.mp hp
      have h1 := stretcherSizes_pos _ hmem.1
      have h2 := stretcherSizes_pos _ hmem.2
      exact ⟨ne_of_gt h1, ne_of_gt h2, backfillPrintOpts_ne_nil p h1 h2⟩
    have hpre : ∃ c, preSortResults iw ih td tw th tol maxS uf fs = .ok c := by
      unfold preSortResults
      rw [hdpi]
      dsimp only
      rw [if_neg h0]
      rw [hF]
      dsimp only
      rw [hcands]
      dsimp only
      by_cases hcond : uf = true ∧ cands.length < maxS
      · rw [if_pos hcond]
        exact backfillLoop_ok_total iw ih _ _ _ F maxS FRAME_CANDIDATES cands hbf hra
      · rw [if_neg hcond]
        exact ⟨cands, rfl⟩
    obtain ⟨c, hc⟩ := hpre
    unfold suggest_stretcher_frames
    rw [hc]
    dsimp only
    rw [if_neg hihz]
    exact ⟨_, rfl⟩

/-! ### Concrete instantiations: witnesses and counterexamples

The general theorems above are exercised on the concrete 1300 × 1300 px,
`target_width_in = 13` request (fan mode, tolerance 15 %, fan span 2) and
on the degenerate inputs that exhibit the divergences. -/

section

set_option maxRecDepth 1000000
set_option maxHeartbeats 4000000
set_option allowUnsafeReducibility true
attribute [local semireducible] Rat.mul Rat.add Rat.sub Rat.inv Rat.ofScientific

/-- Claim C1 (witness): the DPI-band theorem instantiated on the concrete
fan-mode request, at its top-ranked suggestion. -/
theorem suggest_dpi_band_witness :
    head2.dpi_x = ((1300 : ℕ) : ℚ) / (head2.bar_w : ℚ) ∧
    head2.dpi_y = ((1300 : ℕ) : ℚ) / (head2.bar_h : ℚ) ∧
    dpiBandLo 100 15 ≤ head2.dpi_x ∧ head2.dpi_x ≤ dpiBandHi 100 15 ∧
    dpiBandLo 100 15 ≤ head2.dpi_y ∧ head2.dpi_y ≤ dpiBandHi 100 15 :=
  suggest_dpi_band 1300 1300 none (some 13) none 15 2 true 2 100 out2 head2
    rfl rfl (by decide)

/-- Claim C2 (witness): the ranking theorem instantiated on the concrete
fan-mode request. -/
theorem suggest_ranking_witness :
    out2.length ≤ 2 ∧
    out2.Sorted (keyRel (((1300 : ℕ) : ℚ) / ((1300 : ℕ) : ℚ))) ∧
    List.Chain' (fun a b => primaryKey a ≤ primaryKey b) out2 ∧
    (∀ a b, primaryKey a = primaryKey b →
      secondaryKey (((1300 : ℕ) : ℚ) / ((1300 : ℕ) : ℚ)) a =
        secondaryKey (((1300 : ℕ) : ℚ) / ((1300 : ℕ) : ℚ)) b →
      List.Sublist [a, b] pre2 → b ∈ out2 → List.Sublist [a, b] out2) :=
  suggest_ranking 1300 1300 none (some 13) none 15 2 true 2 pre2 out2 rfl rfl

/-- Claim C3 (witness): the cost-contract theorem instantiated on the
concrete fan-mode request, at its top-ranked suggestion. -/
theorem suggest_cost_contract_witness : CostSpec head2 :=
  suggest_cost_contract 1300 1300 none (some 13) none 15 2 true 2 100 out2 head2
    rfl rfl (by decide)

/-- Claim C5 (counterexample): on the concrete fan-mode request with
`max_suggestions = 6` the engine returns 6 suggestions, while only 4
brute-force pairs are admissible — so the returned length is not
`min(max_suggestions, totalAdmissibleBruteForceCandidates)` as claimed. -/
theorem suggest_fan_backfill_length_counterexample :
    suggest_stretcher_frames 1300 1300 none (some 13) none 15 6 true 2 = .ok out6 ∧
    out6.length = 6 ∧
    bruteForceAdmissibleCount 1300 1300 (dpiBandLo 100 15) (dpiBandHi 100 15) = 4 ∧
    ¬ out6.length =
      min 6 (bruteForceAdmissibleCount 1300 1300 (dpiBandLo 100 15) (dpiBandHi 100 15)) := by
  have hpred : (fun p : ℤ × ℤ => decide (admissiblePair 1300 1300
        (dpiBandLo 100 15) (dpiBandHi 100 15) p)) =
      (fun p : ℤ × ℤ =>
        decide (¬ p.1 = 0 ∧ dpiBandLo 100 15 ≤ ((1300 : ℕ) : ℚ) / (p.1 : ℚ) ∧
          ((1300 : ℕ) : ℚ) / (p.1 : ℚ) ≤ dpiBandHi 100 15) &&
        decide (¬ p.2 = 0 ∧ dpiBandLo 100 15 ≤ ((1300 : ℕ) : ℚ) / (p.2 : ℚ) ∧
          ((1300 : ℕ) : ℚ) / (p.2 : ℚ) ≤ dpiBandHi 100 15)) := by
    funext p
    rw [← Bool.decide_and, decide_eq_decide]
    unfold admissiblePair
    constructor
    · rintro ⟨h1, h2, h3, h4, h5, h6⟩
      exact ⟨⟨h1, h3, h4⟩, h2, h5, h6⟩
    · rintro ⟨⟨h1, h3, h4⟩, h2, h5, h6⟩
      exact ⟨h1, h2, h3, h4, h5, h6⟩
  have hbf : bruteForceAdmissibleCount 1300 1300 (dpiBandLo 100 15)
      (dpiBandHi 100 15) = 4 := by
    unfold bruteForceAdmissibleCount FRAME_CANDIDATES
    rw [hpred]
    exact (length_filter_pair_product STRETCHER_SIZES_Z STRETCHER_SIZES_Z
      (fun w : ℤ => decide (¬ w = 0 ∧ dpiBandLo 100 15 ≤ ((1300 : ℕ) : ℚ) / (w : ℚ) ∧
        ((1300 : ℕ) : ℚ) / (w : ℚ) ≤ dpiBandHi 100 15))
      (fun h : ℤ => decide (¬ h = 0 ∧ dpiBandLo 100 15 ≤ ((1300 : ℕ) : ℚ) / (h : ℚ) ∧
        ((1300 : ℕ) : ℚ) / (h : ℚ) ≤ dpiBandHi 100 15))).trans (by decide)
  refine ⟨rfl, by decide, hbf, ?_⟩
  rw [hbf]
  decide

/-- Claim C5 (witness): the amended back-fill contract instantiated on the
concrete fan-mode request with `max_suggestions = 6`: 2 fan survivors, 4
admissible back-fill pairs, and a returned length of `min 6 (2 + 4) = 6`. -/
theorem suggest_fan_backfill_contract_witness :
    (fanK.length < 6) ∧
    (out6.length = min 6 (fanK.length +
      backfillAdmissibleCount 1300 1300 (dpiBandLo 100 15) (dpiBandHi 100 15) fanC) ∧
    (∃ app, pre6 = fanK ++ app ∧
      ∀ r ∈ app, ∃ p ∈ FRAME_CANDIDATES, ¬ p ∈ fanC ∧
        evalBackfill 1300 1300 (dpiBandLo 100 15) (dpiBandHi 100 15)
          (reqArea 1300 1300 100) p = .ok (some r)) ∧
    (∀ r ∈ fanK, suggestionPair r ∈ fanC)) :=
  ⟨by decide,
   suggest_fan_backfill_contract 1300 1300 none (some 13) none 15 6 2 100
     fanC fanK pre6 out6 rfl rfl rfl (by decide) rfl rfl⟩

/-- Claim C6 (counterexample): a directly supplied `target_dpi = 0` is a
well-formed input by the stated contract, yet the engine raises
`ZeroDivisionError` instead of returning a list. -/
theorem suggest_error_contract_counterexample :
    ¬ malformedInput (some 0) none none ∧
    suggest_stretcher_frames 100 100 (some 0) none none 15 16 false 2 =
      .error .zeroDivision :=
  ⟨by decide, rfl⟩

/-- Claim C6 (witness): the amended input contract instantiated on the
concrete fan-mode request. -/
theorem suggest_error_contract_witness :
    (malformedInput none (some 13) none →
      suggest_stretcher_frames 1300 1300 none (some 13) none 15 2 true 2 =
        .error .valueError) ∧
    (¬ malformedInput none (some 13) none →
      ∃ l, suggest_stretcher_frames 1300 1300 none (some 13) none 15 2 true 2 =
        .ok l) :=
  suggest_error_contract 1300 1300 none (some 13) none 15 2 true 2
    (by decide) (by decide)
    (fun d hd => Option.noConfusion hd)
    (by
      intro _ w hw
      injection hw with h
      subst h
      decide)
    (fun _ hq hh => Option.noConfusion hh)

/-- Claim C7 (counterexample): the concrete fan-mode request returns the
pair (13, 14), whose fixed side 13 is not an element of the size domain —
refuting the claim that every returned pair lies in
SizeDomain × SizeDomain. -/
theorem suggest_pairs_domain_counterexample :
    suggest_stretcher_frames 1300 1300 none (some 13) none 15 2 true 2 = .ok out2 ∧
    head2 ∈ out2 ∧ head2.bar_w = 13 ∧ ¬ (13 : ℤ) ∈ STRETCHER_SIZES_Z :=
  ⟨rfl, by decide, by decide, by decide⟩

/-- Claim C7 (witness): the amended domain theorem instantiated on the
concrete fan-mode request, at its top-ranked suggestion. -/
theorem suggest_pairs_domain_witness :
    (head2.bar_w ∈ STRETCHER_SIZES_Z ∧ head2.bar_h ∈ STRETCHER_SIZES_Z) ∨
    (true = true ∧ ∃ w, (some (13 : ℚ)) = some w ∧ head2.bar_w = pyRound w ∧
      head2.bar_h ∈ STRETCHER_SIZES_Z) ∨
    (true = true ∧ (some (13 : ℚ)) = none ∧ ∃ hq, (none : Option ℚ) = some hq ∧
      head2.bar_h = pyRound hq ∧ head2.bar_w ∈ STRETCHER_SIZES_Z) :=
  suggest_pairs_domain 1300 1300 none (some 13) none 15 2 true 2 100 out2 head2
    rfl rfl (by decide)

/-- Claim C10 (witness): the division-by-zero theorem instantiated at a
1000 × 800 px image with `target_width_in = 1/4` in fan mode. -/
theorem suggest_fan_small_width_crash_witness :
    (0 < (1/4 : ℚ) ∧ (1/4 : ℚ) < 1/2) ∧
    suggest_stretcher_frames 1000 800 none (some (1/4)) none 15 16 true 2 =
      .error .zeroDivision :=
  ⟨⟨by decide, by decide⟩,
   suggest_fan_small_width_crash 1000 800 (1/4) 15 16 2
     (by decide) (by decide) (by decide) (by decide) (by decide)⟩

end

end StretcherBar
